import Mathlib

/-!
# NTrace: TCP/IPv6 tracer, probe correlation and reply filtering

A shallow embedding of the probing and correlation code of
`trace/tcp_ipv6.go` and `trace/internal/tcp_unix.go` / `tcp_windows.go`, of the
socket set-up of `trace/internal/icmp_darwin.go`, of the option, target and
listen-address handling of `cmd/cmd.go`, of the asset writer of
`assets/windivert/divert.go`, of the pointer lookup of `dn42/ptr.go` and of the
result construction of `trace/globalping.go`, followed by the properties proved
about it.

Conventions of the embedding:

* Go's `int` is the 64-bit two's-complement integer of amd64 and arm64.  It is
  carried by a mathematical `Int`; every arithmetic result is wrapped with
  `wrapInt64`.  `uint32` and `int32` conversions are `toUint32` and `toInt32`.
  The sequence key, the one place where the width of `int` decides the value,
  is also given for the 32-bit `int` of 386 and arm (`wrapInt`, `encodeSeqW`).
* Bytes are natural numbers below 256, byte slices are lists.
* A goroutine's atomic actions (a map update under the registry lock, an atomic
  load or compare-and-swap, a channel operation) are single steps; values that
  other goroutines or the network decide are inputs of the step functions.
-/

namespace NTrace

/-! ## Machine integers -/

/-- Two's-complement wrap to Go's 64-bit `int`:
`2^63 = 9223372036854775808`, `2^64 = 18446744073709551616`. -/
def wrapInt64 (x : Int) : Int :=
  (x + 9223372036854775808) % 18446744073709551616 - 9223372036854775808

/-- Conversion `uint32(x)`: the low 32 bits, `2^32 = 4294967296`. -/
def toUint32 (x : Int) : Int := x % 4294967296

/-- Conversion `int32(x)`: the low 32 bits read as a signed value. -/
def toInt32 (x : Int) : Int := (x + 2147483648) % 4294967296 - 2147483648

/-! ## Probe sequence encoding (`TCPTracerIPv6.send`, lines 346-347) -/

/-- `seq := (ttl << 24) | (i & 0xFFFFFF)` on Go `int`s of 64 bits (amd64,
arm64); `encodeSeqW` below gives the same line for either width of `int`. -/
def encodeSeq (ttl i : Int) : Int :=
  Int.lor (wrapInt64 (ttl * 16777216)) (Int.land i 0xFFFFFF)

/-- Two's-complement wrap to a Go `int` of `w` bits: 32 on the 386 and arm
targets, 64 on amd64 and arm64. -/
def wrapInt (w : Nat) (x : Int) : Int :=
  (x + ((2 ^ (w - 1) : Nat) : Int)) % ((2 ^ w : Nat) : Int) - ((2 ^ (w - 1) : Nat) : Int)

/-- `seq := (ttl << 24) | (i & 0xFFFFFF)` (line 347 of `send`) on a Go `int` of
`w` bits.  `tcp_ipv6.go` carries no build constraint, so both widths occur. -/
def encodeSeqW (w : Nat) (ttl i : Int) : Int :=
  Int.lor (wrapInt w (ttl * 16777216)) (Int.land i 0xFFFFFF)

/-! ## TCP reply handling -/

/-- The callback handed to `internal.ListenTCP` in `TCPTracerIPv6.Execute`
(lines 158-165): `ackType == 1` is RST+ACK, every other value is treated as
SYN+ACK.  `ack` is a `uint32`, so `int(ack)` is the same number. -/
def onTCPSeq (pktSize : Int) (ack : Int) (ackType : Int) : Int :=
  if ackType = 1 then
    wrapInt64 (wrapInt64 (ack - 1) - pktSize)
  else
    wrapInt64 (ack - 1)

/-- An IP address as Go's `net.IP`: a byte slice. -/
abbrev IP := List Nat

/-- The 12-byte prefix `v4InV6Prefix` of an IPv4-mapped IPv6 address. -/
def v4InV6Prefix : List Nat := [0, 0, 0, 0, 0, 0, 0, 0, 0, 0, 0xff, 0xff]

/-- Go's `net.IP.Equal`: same bytes when the lengths agree; a 4-byte address
equals its 16-byte IPv4-mapped form; false otherwise. -/
def IP.Equal (ip x : IP) : Bool :=
  if ip.length = x.length then decide (ip = x)
  else if ip.length = 4 ∧ x.length = 16 then
    decide (x.take 12 = v4InV6Prefix) && decide (ip = x.drop 12)
  else if ip.length = 16 ∧ x.length = 4 then
    decide (ip.take 12 = v4InV6Prefix) && decide (ip.drop 12 = x)
  else false

/-- Go's `net.IPv6zero`, the unspecified address. -/
def IPv6zero : IP := List.replicate 16 0

/-- The fields of a decoded `layers.TCP` that `ListenTCP` reads. -/
structure TCPLayer where
  SrcPort : Int
  DstPort : Int
  Ack : Int
  ACK : Bool
  SYN : Bool
  RST : Bool
deriving DecidableEq, Repr

/-- The fields of `TCPSpec` that `ListenTCP` reads. -/
structure TCPSpec where
  IPVersion : Int
  DstIP : IP
  DstPort : Int
  PktSize : Int
deriving DecidableEq, Repr

/-- One message taken from the packet listener in the Unix `ListenTCP`:
`err` is `msg.Err != nil`, `peerIP` is `util.AddrIP(msg.Peer)` (`none` for nil),
`tcp` is the decoded TCP layer (`none` when decoding failed or the layer is
missing). -/
structure TCPMessage where
  err : Bool
  peerIP : Option IP
  tcp : Option TCPLayer
deriving DecidableEq, Repr

/-- The arguments of one `onTCP(srcPort, seq, peer, finish)` call (the time stamp
is left out). -/
structure OnTCPCall where
  srcPort : Int
  seq : Int
deriving DecidableEq, Repr

/-- Lines 107-115 of `tcp_unix.go` (288-296 of `tcp_windows.go`): the probe
sequence recovered from the flags, `none` for the `continue` branch. -/
def TCPSpec.recoverSeq (s : TCPSpec) (tl : TCPLayer) : Option Int :=
  if tl.ACK && tl.RST then
    some (wrapInt64 (wrapInt64 (tl.Ack - 1) - s.PktSize))
  else if tl.ACK && tl.SYN then
    some (wrapInt64 (tl.Ack - 1))
  else
    none

/-- One iteration of the receive loop of the Unix `TCPSpec.ListenTCP`
(`tcp_unix.go`, lines 82-117): the callback invocation, or `none` when the
message is skipped. -/
def TCPSpec.ListenTCP (s : TCPSpec) (msg : TCPMessage) : Option OnTCPCall :=
  if msg.err then none
  else
    match msg.peerIP with
    | none => none
    | some ip =>
      if !ip.Equal s.DstIP then none
      else
        match msg.tcp with
        | none => none
        | some tl =>
          if tl.SrcPort ≠ s.DstPort then none
          else
            match s.recoverSeq tl with
            | none => none
            | some seq => some ⟨tl.DstPort, seq⟩

/-- One captured packet in the Windows `ListenTCP`: the capture filter already
selects source host and port, `network` is `pkt.NetworkLayer() != nil`, `tcp` the
decoded TCP layer, `ip4` / `ip6` whether the matching IP layer decodes. -/
structure PcapTCPPacket where
  network : Bool
  tcp : Option TCPLayer
  ip4 : Bool
  ip6 : Bool
deriving DecidableEq, Repr

/-- One iteration of the receive loop of the Windows `TCPSpec.ListenTCP`
(`tcp_windows.go`, lines 271-316). -/
def TCPSpec.ListenTCPWindows (s : TCPSpec) (pkt : PcapTCPPacket) : Option OnTCPCall :=
  if !pkt.network then none
  else
    match pkt.tcp with
    | none => none
    | some tl =>
      if tl.SrcPort ≠ s.DstPort then none
      else
        match s.recoverSeq tl with
        | none => none
        | some seq =>
          if s.IPVersion = 4 then
            (if pkt.ip4 then some ⟨tl.DstPort, seq⟩ else none)
          else
            (if pkt.ip6 then some ⟨tl.DstPort, seq⟩ else none)

/-! ## Configuration -/

/-- The fields of `Config` read by the modelled code. -/
structure Config where
  BeginHop : Int
  MaxHops : Int
  NumMeasurements : Int
  MaxAttempts : Int
  PktSize : Int
  DestIP : IP
deriving DecidableEq, Repr

/-! ## Hops, reply channels and the in-flight registry -/

/-- Error values that the modelled code returns or stores in a hop. -/
inductive GoError where
  | contextCanceled
  | errHopLimitTimeout
  | other (msg : String)
deriving DecidableEq, Repr

/-- The fields of `Hop` that the tracer itself writes.  `Address` is
`util.AddrIP(h.Address)`, `none` for a nil address; the geo and host-name fields
filled by `fetchIPData` are not represented. -/
structure Hop where
  Success : Bool
  Address : Option IP
  TTL : Int
  RTT : Int
  Error : Option GoError
  MPLS : List String
deriving DecidableEq, Repr

/-- A value of type `chan Hop`: the nil channel, or a channel made by
`make(chan Hop, 1)` with its one-place buffer. -/
inductive Chan where
  | nil
  | buffered (slot : Option Hop)
deriving DecidableEq, Repr

/-- The statement `select { case ch <- h: default: }`: the hop is stored when
the buffer has room, otherwise the `default` branch is taken and nothing
changes.  A send on a nil channel is never ready. -/
def Chan.trySend (ch : Chan) (h : Hop) : Chan :=
  match ch with
  | .nil => .nil
  | .buffered none => .buffered (some h)
  | .buffered (some h0) => .buffered (some h0)

/-- The map `inflightRequest map[int]chan Hop` as an association list with at
most one entry per key; a channel is identified with the entry that holds it. -/
abbrev Registry := List (Int × Chan)

/-- The map read `ch, ok := m[k]`: `none` when `ok` is false. -/
def Registry.lookup (r : Registry) (k : Int) : Option Chan :=
  match r with
  | [] => none
  | (j, c) :: rest => if j = k then some c else Registry.lookup rest k

/-- The builtin `delete(m, k)`. -/
def Registry.delete (r : Registry) (k : Int) : Registry :=
  r.filter (fun e => decide (e.1 ≠ k))

/-- The map write `m[k] = c`. -/
def Registry.insert (r : Registry) (k : Int) (c : Chan) : Registry :=
  (k, c) :: Registry.delete r k

/-- A non-blocking send on the channel that `lookup` finds under key `k`: the
channel is changed in place, the map itself is not written. -/
def Registry.trySendOn (r : Registry) (k : Int) (h : Hop) : Registry :=
  match r with
  | [] => []
  | (j, c) :: rest =>
    if j = k then (j, c.trySend h) :: rest else (j, c) :: Registry.trySendOn rest k h

/-- Lines 167-185 and 303-322 of `tcp_ipv6.go`, shared by both correlators:
look the channel up, return when the key is absent or the channel nil, otherwise
try a non-blocking send. -/
def dispatch (r : Registry) (seq : Int) (h : Hop) : Registry :=
  match Registry.lookup r seq with
  | none => r
  | some .nil => r
  | some (.buffered _) => Registry.trySendOn r seq h

/-- The reply callback of `Execute` (lines 158-186) applied to one TCP reply:
`peer` stands for `util.AddrIP(peer)`. -/
def onTCP (pktSize : Int) (r : Registry) (ack : Int) (peer : Option IP) (ackType : Int) :
    Registry :=
  dispatch r (onTCPSeq pktSize ack ackType) ⟨true, peer, 0, 0, none, []⟩

/-- The fields of `ReceivedMessage` read by the ICMP path: `N` is the optional
byte count, `Peer` stands for the peer address. -/
structure ReceivedMessage where
  N : Option Int
  Msg : List Nat
  Peer : Option IP
deriving DecidableEq, Repr

/-- The function `handleICMPMessage` (lines 290-323).  The helpers
`extractMPLS`, `util.GetICMPResponsePayload` and `util.GetTCPSeq` live in other
packages and are parameters; the last two return `none` for an error. -/
def handleICMPMessage (extractMPLS : ReceivedMessage → List String)
    (getICMPResponsePayload : List Nat → Option (List Nat))
    (getTCPSeq : List Nat → Option Int)
    (r : Registry) (msg : ReceivedMessage) (data : List Nat) : Registry :=
  let mpls := extractMPLS msg
  match getICMPResponsePayload data with
  | none => r
  | some header =>
    match getTCPSeq header with
    | none => r
    | some seq => dispatch r seq ⟨true, msg.Peer, 0, 0, none, mpls⟩

/-! ## The final TTL -/

/-- One successful round of the compare-and-swap loop of `send` (lines 426-434)
on the value of the atomic `final`: the loop leaves `final` alone when it is set
and `ttl >= final`, and stores `int32(ttl)` otherwise.  Rounds whose
compare-and-swap fails change nothing and are not represented. -/
def casFinal (old ttl : Int) : Int :=
  if old ≠ -1 ∧ ttl ≥ old then old else toInt32 ttl

/-- Lines 421-435 of `send` read as one atomic step on `final` for a reply to
the probe of `ttl`; `isDest` says that the reply peer equals `DestIP`. -/
def replyFinal (final ttl : Int) (isDest : Bool) : Int :=
  if final ≠ -1 ∧ ttl > final then final
  else if isDest then casFinal final ttl
  else final

/-- The value of `final` after the destination replies to the probes of the TTLs
`ts` were processed in this order, starting from the `-1` stored by `Execute`
(line 151). -/
def finalAfter (ts : List Int) : Int :=
  ts.foldl (fun f t => replyFinal f t true) (-1)

/-! ## ICMPv6 replies: `TCPTracerIPv6.listenICMP` -/

/-- ICMPv6 type numbers of `golang.org/x/net/ipv6`. -/
def ICMPTypeDestinationUnreachable : Nat := 1

/-- ICMPv6 type 2. -/
def ICMPTypePacketTooBig : Nat := 2

/-- ICMPv6 type 3. -/
def ICMPTypeTimeExceeded : Nat := 3

/-- The dynamic type of `rm.Body` after `icmp.ParseMessage`, with the `Data`
field of the bodies that carry one; `none` is a nil pointer of that type. -/
inductive MessageBody where
  | TimeExceeded (data : Option (List Nat))
  | DstUnreach (data : Option (List Nat))
  | PacketTooBig (data : Option (List Nat))
  | Other
deriving DecidableEq, Repr

/-- A parsed `icmp.Message`; `icmpType` is its field `Type`. -/
structure ICMPMessage where
  icmpType : Nat
  Body : MessageBody
deriving DecidableEq, Repr

/-- Lines 259-276 of `listenICMP`: the quoted payload selected by the message
type, `none` for the `continue` branches. -/
def quotedData (rm : ICMPMessage) : Option (List Nat) :=
  if rm.icmpType = ICMPTypeTimeExceeded then
    match rm.Body with
    | .TimeExceeded (some data) => some data
    | _ => none
  else if rm.icmpType = ICMPTypeDestinationUnreachable then
    match rm.Body with
    | .DstUnreach (some data) => some data
    | _ => none
  else none

/-- The type switch of the IPv6 branch of `listenICMPPcap` in `tcp_windows.go`
(lines 193-200): true when the packet is kept. -/
def pcapAcceptsType6 (icmpType : Nat) : Bool :=
  if icmpType = ICMPTypeTimeExceeded then true
  else if icmpType = ICMPTypePacketTooBig then true
  else if icmpType = ICMPTypeDestinationUnreachable then true
  else false

/-- The slice expression `data[lo:hi]`, `none` for the run-time panic of bounds
out of range. -/
def sliceOf (data : List Nat) (lo hi : Nat) : Option (List Nat) :=
  if lo ≤ hi ∧ hi ≤ data.length then some ((data.take hi).drop lo) else none

/-- What one iteration of `listenICMP` does with a quoted payload. -/
inductive Verdict where
  | dropped
  | handled (data : List Nat)
  | panicked
deriving DecidableEq, Repr

/-- Lines 278-285 of `listenICMP`: the length and version test, the slice of
the inner destination address and the comparison with the target. -/
def filterQuoted (destIP : IP) (data : List Nat) : Verdict :=
  if data.length < 40 then .dropped
  else
    match data.get? 0 with
    | none => .panicked
    | some b0 =>
      if b0 >>> 4 ≠ 6 then .dropped
      else
        match sliceOf data 24 40 with
        | none => .panicked
        | some dstip =>
          if IP.Equal dstip destIP || IP.Equal dstip IPv6zero then .handled data
          else .dropped

/-- One iteration of the loop of `listenICMP` (lines 249-285) for a received
message; `parsed` is the result of `icmp.ParseMessage` on its bytes, `none` for
an error. -/
def listenICMP (destIP : IP) (msg : ReceivedMessage) (parsed : Option ICMPMessage) : Verdict :=
  match msg.N with
  | none => .dropped
  | some _ =>
    match parsed with
    | none => .dropped
    | some rm =>
      match quotedData rm with
      | none => .dropped
      | some data => filterQuoted destIP data

/-! ## The end of `Execute` -/

/-- Lines 224-227 of `Execute`: the argument passed to `res.reduce`, from the
value loaded from `final` and `MaxHops`. -/
def reduceBound (final : Int) (cfg : Config) : Int :=
  let bound := final
  if bound = -1 then cfg.MaxHops else bound

/-! ## One probe: `TCPTracerIPv6.send` -/

/-- The method `ttlComp` (lines 73-78), on a snapshot of `res.Hops`.  `none`
is the run-time panic of an index out of range.  -/
def ttlComp (hops : List (List Hop)) (numMeasurements ttl : Int) : Option Bool :=
  let idx := wrapInt64 (ttl - 1)
  if idx < hops.length then
    if idx < 0 then none
    else some (decide ((hops.getD idx.toNat []).length ≥ numMeasurements))
  else some false

/-- Which case of the final `select` of `send` fires. -/
inductive SelectEvent where
  | ctxDone
  | reply (h : Hop)
  | timeout
deriving DecidableEq, Repr

/-- Everything one call of `send` observes from the other goroutines and from
the operating system, in program order. -/
structure SendEnv where
  hops1 : List (List Hop)
  acquireErr : Option GoError
  final1 : Int
  hops2 : List (List Hop)
  serializeErr : Option GoError
  setHopLimitErr : Option GoError
  writeErr : Option GoError
  event : SelectEvent
  rtt : Int
  final2 : Int
deriving DecidableEq, Repr

/-- The actions of `send` on shared state, on the socket and on the result. -/
inductive Effect where
  | register (seq : Int)
  | write (seq : Int) (hopLimit : Int)
  | cas (ttl : Int)
  | add (h : Hop) (i numMeasurements maxAttempts : Int)
  | unregister (seq : Int)
deriving DecidableEq, Repr

/-- How a call of `send` ends. -/
inductive SendReturn where
  | panicked
  | returned (err : Option GoError)
deriving DecidableEq, Repr

/-- The actions of one call of `send`, in order, and its return. -/
structure SendRun where
  effects : List Effect
  ret : SendReturn
deriving DecidableEq, Repr

/-- The part of `send` after the packet was written (lines 415-458), without the
deferred clean-up. -/
def sendAwait (cfg : Config) (env : SendEnv) (ttl i : Int) : SendRun :=
  match env.event with
  | .ctxDone => ⟨[], .returned (some .contextCanceled)⟩
  | .reply h =>
    if env.final2 ≠ -1 ∧ ttl > env.final2 then ⟨[], .returned none⟩
    else
      let isDest := match h.Address with
        | some ip => ip.Equal cfg.DestIP
        | none => false
      let h1 : Hop := { h with TTL := ttl, RTT := env.rtt }
      ⟨(if isDest then [Effect.cas ttl] else []) ++
          [Effect.add h1 i cfg.NumMeasurements cfg.MaxAttempts], .returned none⟩
  | .timeout =>
    if env.final2 ≠ -1 ∧ ttl > env.final2 then ⟨[], .returned none⟩
    else
      ⟨[Effect.add ⟨false, none, ttl, 0, some .errHopLimitTimeout, []⟩ i
          cfg.NumMeasurements cfg.MaxAttempts], .returned none⟩

/-- The part of `send` between the registration of the key and the deferred
`delete` (lines 359-458). -/
def sendRegistered (cfg : Config) (env : SendEnv) (ttl i : Int) : SendRun :=
  if cfg.PktSize < 0 then ⟨[], .panicked⟩
  else
    match env.serializeErr with
    | some e => ⟨[], .returned (some e)⟩
    | none =>
      match env.setHopLimitErr with
      | some e => ⟨[], .returned (some e)⟩
      | none =>
        match env.writeErr with
        | some e => ⟨[], .returned (some e)⟩
        | none =>
          let rest := sendAwait cfg env ttl i
          ⟨Effect.write (encodeSeq ttl i) ttl :: rest.effects, rest.ret⟩

/-- The method `send` (lines 325-459). -/
def send (cfg : Config) (env : SendEnv) (ttl i : Int) : SendRun :=
  match ttlComp env.hops1 cfg.NumMeasurements ttl with
  | none => ⟨[], .panicked⟩
  | some true => ⟨[], .returned none⟩
  | some false =>
    match env.acquireErr with
    | some e => ⟨[], .returned (some e)⟩
    | none =>
      if env.final1 ≠ -1 ∧ ttl > env.final1 then ⟨[], .returned none⟩
      else
        match ttlComp env.hops2 cfg.NumMeasurements ttl with
        | none => ⟨[], .panicked⟩
        | some true => ⟨[], .returned none⟩
        | some false =>
          let seq := encodeSeq ttl i
          let body := sendRegistered cfg env ttl i
          ⟨Effect.register seq :: body.effects ++ [Effect.unregister seq], body.ret⟩

/-- The state shared by the probes: the registry and the atomic `final`. -/
structure Shared where
  inflight : Registry
  final : Int
deriving DecidableEq, Repr

/-- The change one action makes to the shared state. -/
def Effect.apply (s : Shared) (e : Effect) : Shared :=
  match e with
  | .register seq => { s with inflight := Registry.insert s.inflight seq (.buffered none) }
  | .unregister seq => { s with inflight := Registry.delete s.inflight seq }
  | .cas ttl => { s with final := casFinal s.final ttl }
  | .write _ _ => s
  | .add _ _ _ _ => s

/-- The shared state after a sequence of actions. -/
def applyEffects (s : Shared) (es : List Effect) : Shared :=
  es.foldl Effect.apply s

/-- The orders in which the actions of concurrently running calls can take
place: each call's actions keep their order. -/
inductive Interleaving : List (List Effect) → List Effect → Prop where
  | done (ls : List (List Effect)) : (∀ l ∈ ls, l = []) → Interleaving ls []
  | step (pre post : List (List Effect)) (x : Effect) (l out : List Effect) :
      Interleaving (pre ++ l :: post) out →
      Interleaving (pre ++ (x :: l) :: post) (x :: out)

/-- True when the call wrote its probe packet to the socket. -/
def SendRun.wrote (r : SendRun) : Bool :=
  r.effects.any (fun e => match e with
    | .write _ _ => true
    | _ => false)

/-- True when the call passed a hop to `Result.add`. -/
def SendRun.added (r : SendRun) : Bool :=
  r.effects.any (fun e => match e with
    | .add _ _ _ _ => true
    | _ => false)

/-- True when the call returned `context.Canceled`. -/
def SendRun.cancelled (r : SendRun) : Bool :=
  decide (r.ret = .returned (some .contextCanceled))

/-- The number of hops a call passed to `Result.add`. -/
def SendRun.addCount (r : SendRun) : Nat :=
  r.effects.countP (fun e => match e with
    | .add _ _ _ _ => true
    | _ => false)

/-- Every registration in the list is followed by the removal of the same key. -/
def Closed : List Effect → Prop
  | [] => True
  | .register k :: rest => Effect.unregister k ∈ rest ∧ Closed rest
  | _ :: rest => Closed rest

/-! ## The result and the return of `Execute` -/

/-- Modelled from the spec: `Result.reduce`, whose source is not part of the
files at hand.  The spec gives it as "`reduce(n)`: truncate `Hops` to `n`
entries"; the first `n` slots are kept. -/
def Result.reduce (hops : List (List Hop)) (n : Int) : List (List Hop) :=
  hops.take n.toNat

/-- The cause of a cancelled context: the sentinel `errNaturalDone` of package
`trace`, another error value without an `Unwrap` method (`context.Canceled` after
an interrupt, or any other error), or an error that wraps another one. -/
inductive Cause where
  | errNaturalDone
  | plain (e : GoError)
  | wrapped (msg : String) (inner : Cause)
deriving DecidableEq, Repr

/-- Go's `errors.Is(err, target)`: `err` or an error in its `Unwrap` chain equals
`target`. -/
def errorsIs : Cause → Cause → Bool
  | .wrapped msg inner, target =>
    decide (Cause.wrapped msg inner = target) || errorsIs inner target
  | .errNaturalDone, target => decide (Cause.errNaturalDone = target)
  | .plain e, target => decide (Cause.plain e = target)

/-- Lines 224-233 of `Execute`, after the context is done and all tasks have
finished: `hops` is `t.res.Hops` and `final` the value of the atomic at that
moment, `cause` is `context.Cause(ctx)`.  The pair is the returned result and
error (`none` for nil). -/
def executeFinish (cfg : Config) (hops : List (List Hop)) (final : Int) (cause : Cause) :
    List (List Hop) × Option Cause :=
  let bound := reduceBound final cfg
  let res := Result.reduce hops bound
  if !errorsIs cause .errNaturalDone then (res, some cause) else (res, none)

/-! ## The printer poller: `TCPTracerIPv6.PrintFunc` -/

/-- A call of one of the printer callbacks of `Config`. -/
inductive PrinterCall where
  | AsyncPrinter
  | RealtimePrinter (ttl : Int)
deriving DecidableEq, Repr

/-- How one round of the loop of `PrintFunc` ends: at the `select`, with
`cancel(errNaturalDone)` and a return, or with the panic of `ttlComp`. -/
inductive PrintOutcome where
  | atSelect
  | naturalDone
  | panicked
deriving DecidableEq, Repr

/-- The callbacks invoked in one round, the value of the local `ttl` after it
and how the round ends. -/
structure PrintRound where
  calls : List PrinterCall
  ttl : Int
  outcome : PrintOutcome
deriving DecidableEq, Repr

/-- The initial value of the local `ttl` of `PrintFunc` (line 44). -/
def printFuncInit (cfg : Config) : Int := wrapInt64 (cfg.BeginHop - 1)

/-- One round of the loop of `PrintFunc` (lines 49-63) with the local `ttl`:
`hasAsync` and `hasRealtime` say whether `AsyncPrinter` and `RealtimePrinter`
are non-nil, `hops` and `final` are the values read in this round. -/
def printFuncRound (cfg : Config) (hasAsync hasRealtime : Bool) (hops : List (List Hop))
    (final : Int) (ttl : Int) : PrintRound :=
  let calls0 : List PrinterCall := if hasAsync then [.AsyncPrinter] else []
  match ttlComp hops cfg.NumMeasurements (wrapInt64 (ttl + 1)) with
  | none => ⟨calls0, ttl, .panicked⟩
  | some false => ⟨calls0, ttl, .atSelect⟩
  | some true =>
    let calls := calls0 ++ (if hasRealtime then [PrinterCall.RealtimePrinter ttl] else [])
    let ttl1 := wrapInt64 (ttl + 1)
    if ttl1 = final ∨ ttl1 ≥ cfg.MaxHops then ⟨calls, ttl1, .naturalDone⟩
    else ⟨calls, ttl1, .atSelect⟩

/-! ## The TTL fan-out driver and `launchTTL` -/

/-- What the fan-out driver of `Execute` observes in one round of its loop:
whether the `select` takes the `ctx.Done()` branch, and the value loaded from
`final` after a tick. -/
structure TickObs where
  ctxDone : Bool
  final : Int
deriving DecidableEq, Repr

/-- The loop of the fan-out driver (lines 203-217) from the loop variable
`ttl`, one observation per round: the TTLs handed to `launchTTL`, in order.
The list of observations ends where the observed run ends. -/
def fanOutLoop (cfg : Config) : Int → List TickObs → List Int
  | _, [] => []
  | ttl, o :: rest =>
    if ttl ≤ cfg.MaxHops then
      if o.ctxDone then []
      else if o.final ≠ -1 ∧ ttl > o.final then []
      else ttl :: fanOutLoop cfg (wrapInt64 (ttl + 1)) rest
    else []

/-- The fan-out driver of `Execute` (lines 194-218): `BeginHop` is launched at
once, the later TTLs by the loop. -/
def fanOut (cfg : Config) (obs : List TickObs) : List Int :=
  cfg.BeginHop :: fanOutLoop cfg (wrapInt64 (cfg.BeginHop + 1)) obs

/-- What the goroutine of `launchTTL` observes in one round of its loop: the
slots read by `ttlComp`, whether `ctx.Err()` is non-nil at line 84, and whether
the `select` after the probe takes the `ctx.Done()` branch. -/
structure LaunchObs where
  hops : List (List Hop)
  ctxErr : Bool
  ctxDone : Bool
deriving DecidableEq, Repr

/-- The loop of `launchTTL` (lines 82-103) from the loop variable `i`, one
observation per round: the attempt indexes for which `send` is started, in
order.  A panic of `ttlComp` ends the goroutine without a probe. -/
def launchLoop (cfg : Config) (ttl : Int) : Int → List LaunchObs → List Int
  | _, [] => []
  | i, o :: rest =>
    if i < cfg.MaxAttempts then
      match ttlComp o.hops cfg.NumMeasurements ttl with
      | none => []
      | some true => []
      | some false =>
        if o.ctxErr then []
        else i :: (if o.ctxDone then [] else launchLoop cfg ttl (wrapInt64 (i + 1)) rest)
    else []

/-- The method `launchTTL` (lines 80-105). -/
def launchTTL (cfg : Config) (ttl : Int) (obs : List LaunchObs) : List Int :=
  launchLoop cfg ttl 0 obs

/-- The rounds of `launchTTL` as the claim words them, without the cap of
MaxAttempts: a round in which the slot is not complete and the context is alive
issues one probe, and the rounds go on unless the wait after the probe is ended
by `ctx.Done()`; any other round issues no probe and ends the count. -/
def liveRounds (cfg : Config) (ttl : Int) : List LaunchObs → Nat
  | [] => 0
  | o :: rest =>
    if ttlComp o.hops cfg.NumMeasurements ttl = some false ∧ o.ctxErr = false then
      if o.ctxDone then 1 else 1 + liveRounds cfg ttl rest
    else 0

/-! ## Windows: `TCPSpec.resolveICMPMode` -/

/-- The value returned by `resolveICMPMode`, whether `pcapAvailable` was called
and whether the fall-back message was logged. -/
structure ModeResolution where
  mode : Int
  probed : Bool
  logged : Bool
deriving DecidableEq, Repr

/-- The method `resolveICMPMode` (`tcp_windows.go`, lines 54-74); `pcapOK` is
the first result of `pcapAvailable()`. -/
def resolveICMPMode (ICMPMode : Int) (pcapOK : Bool) : ModeResolution :=
  let icmpMode := if ICMPMode ≠ 1 ∧ ICMPMode ≠ 2 then 0 else ICMPMode
  if icmpMode = 1 then ⟨1, false, false⟩
  else if !pcapOK then ⟨1, true, decide (icmpMode = 2)⟩
  else ⟨2, true, false⟩

/-- The two ICMP listeners of the Windows `TCPSpec`. -/
inductive ICMPListener where
  | listenICMPSock
  | listenICMPPcap
deriving DecidableEq, Repr

/-- The Windows `ListenICMP` (lines 76-83): the listeners it starts. -/
def ListenICMP (ICMPMode : Int) (pcapOK : Bool) : List ICMPListener :=
  let m := (resolveICMPMode ICMPMode pcapOK).mode
  if m = 1 then [.listenICMPSock]
  else if m = 2 then [.listenICMPPcap]
  else []

/-! ## Command line: `cmd.Execute` -/

/-- The constants of type `trace.Method`. -/
inductive Method where
  | ICMPTrace
  | UDPTrace
  | TCPTrace
deriving DecidableEq, Repr

/-- The parsed command-line values read by lines 227-256 of `cmd.Execute`. -/
structure CmdFlags where
  tcp : Bool
  udp : Bool
  port : Int
  maxAttempts : Int
  packetSize : Int
deriving DecidableEq, Repr

/-- The values after lines 227-256: they go to `DstPort`, `MaxAttempts` and
`PktSize` of the trace `Config` (lines 430, 435, 442) and to the tracer
choice. -/
structure CmdSettings where
  port : Int
  maxAttempts : Int
  packetSize : Int
  m : Method
deriving DecidableEq, Repr

/-- Lines 227-256 of `cmd.Execute`. -/
def cmdSettings (f : CmdFlags) : CmdSettings :=
  let port := if f.port = 0 then (if f.udp then 33494 else 80) else f.port
  let maxAttempts := if f.maxAttempts > 255 then 255 else f.maxAttempts
  let packetSize := if f.udp && decide (f.packetSize < 2) then 2 else f.packetSize
  let m := if f.tcp then Method.TCPTrace else if f.udp then Method.UDPTrace else Method.ICMPTrace
  ⟨port, maxAttempts, packetSize, m⟩

/-! ## WinDivert assets: `writeIfChecksumDiff` -/

/-- The file system: the content of each path, `none` where no file exists. -/
abbrev FileSystem := String → Option (List Nat)

/-- The failures the operating system can answer with during one call:
`os.Open`, `io.Copy` and `os.WriteFile`. -/
structure FileEnv where
  openErr : Option GoError
  readErr : Option GoError
  writeErr : Option GoError
deriving DecidableEq, Repr

/-- The file system after a call, whether `os.WriteFile` was called, and the
returned error. -/
structure WriteRun where
  fs : FileSystem
  wrote : Bool
  err : Option GoError

/-- The call `os.WriteFile(dst, data, 0o644)`; a failed write is taken to leave
the file system as it was. -/
def osWriteFile (env : FileEnv) (fs : FileSystem) (dst : String) (data : List Nat) : WriteRun :=
  match env.writeErr with
  | some e => ⟨fs, true, some e⟩
  | none => ⟨fun p => if p = dst then some data else fs p, true, none⟩

/-- The function `writeIfChecksumDiff` (`divert.go`, lines 65-84); `sha256` is
the digest of `crypto/sha256`.  `os.Open` fails when the environment says so or
when no file exists at `dst`. -/
def writeIfChecksumDiff (sha256 : List Nat → List Nat) (env : FileEnv) (fs : FileSystem)
    (dst : String) (data : List Nat) : WriteRun :=
  match env.openErr with
  | some _ => osWriteFile env fs dst data
  | none =>
    match fs dst with
    | none => osWriteFile env fs dst data
    | some content =>
      match env.readErr with
      | some _ => osWriteFile env fs dst data
      | none =>
        let sumFile := sha256 content
        let sumMem := sha256 data
        if sumFile = sumMem then ⟨fs, false, none⟩
        else osWriteFile env fs dst data

/-! ## Go strings

The string handling of `cmd.go`, `icmp_darwin.go` and `ptr.go` is embedded on
lists of characters.  Every separator and needle in the modelled code is a
single ASCII character, for which Go's byte-wise functions and the character-wise
ones below agree. -/

/-- Go's `strings.Split(s, sep)` for a one-character separator: the pieces
between the separators, one more than there are separators. -/
def strSplit (sep : Char) : List Char → List (List Char)
  | [] => [[]]
  | x :: xs =>
    if x = sep then [] :: strSplit sep xs
    else
      match strSplit sep xs with
      | [] => [[x]]
      | p :: ps => (x :: p) :: ps

/-! ## Command line: the target of `cmd.Execute` -/

/-- How the domain processing of `cmd.Execute` (lines 284-307) ends: with the
usage text, with "Invalid input", with the host to look up, or with the panic of
an index out of range. -/
inductive DomainResult where
  | usage
  | invalidInput
  | host (domain : List Char)
  | panicked
deriving DecidableEq, Repr

/-- Lines 300-306 of `cmd.Execute`: brackets and port are stripped. -/
def stripBrackets (domain : List Char) : DomainResult :=
  if domain.contains ']' then
    match (strSplit ']' domain).get? 0 with
    | none => .panicked
    | some before =>
      match (strSplit '[' before).get? 1 with
      | none => .panicked
      | some inner => .host inner
  else if domain.contains ':' then
    if domain.count ':' = 1 then
      match (strSplit ':' domain).get? 0 with
      | none => .panicked
      | some h => .host h
    else .host domain
  else .host domain

/-- Lines 284-307 of `cmd.Execute` for the positional argument `domain`. -/
def processDomain (domain : List Char) : DomainResult :=
  if domain = [] then .usage
  else if domain.contains '/' then
    let domain1 := 'n' :: domain
    let parts := strSplit '/' domain1
    if parts.length < 3 then .invalidInput
    else
      match parts.get? 2 with
      | none => .panicked
      | some d => stripBrackets d
  else stripBrackets domain

/-! ## Command line: `buildListenInfo` -/

/-- Go's `net.IP.To4`: the 4-byte form of an IPv4 or IPv4-mapped address,
`none` for nil. -/
def IP.To4 (ip : IP) : Option IP :=
  if ip.length = 4 then some ip
  else if ip.length = 16 ∧ (ip.take 10).all (fun b => decide (b = 0)) = true ∧
      ip.getD 10 0 = 0xff ∧ ip.getD 11 0 = 0xff then some (ip.drop 12)
  else none

/-- Go's `net.IP.To16`: the 16-byte form, `none` for nil. -/
def IP.To16 (ip : IP) : Option IP :=
  if ip.length = 4 then some (v4InV6Prefix ++ ip)
  else if ip.length = 16 then some ip
  else none

/-- Go's `net.IPv6loopback`, the address `::1`. -/
def IPv6loopback : IP := List.replicate 15 0 ++ [1]

/-- Go's `net.IP.IsLoopback`. -/
def IP.IsLoopback (ip : IP) : Bool :=
  match ip.To4 with
  | some ip4 => decide (ip4.getD 0 0 = 127)
  | none => IP.Equal ip IPv6loopback

/-- Go's `net.IP.String` for a 4-byte address: dotted decimal. -/
def ip4String (ip4 : IP) : List Char :=
  Nat.toDigits 10 (ip4.getD 0 0) ++ '.' :: Nat.toDigits 10 (ip4.getD 1 0) ++
    '.' :: Nat.toDigits 10 (ip4.getD 2 0) ++ '.' :: Nat.toDigits 10 (ip4.getD 3 0)

/-- One element of the result of `net.InterfaceAddrs()`: whether its dynamic
type is `*net.IPNet`, and the IP of that net. -/
structure InterfaceAddr where
  isIPNet : Bool
  ip : IP
deriving DecidableEq, Repr

/-- The loop of `guessLocalIPv4` (lines 91-97): the first non-loopback IPv4
address, `none` when the loop ends without a return. -/
def firstLocalIPv4 : List InterfaceAddr → Option (List Char)
  | [] => none
  | a :: rest =>
    if a.isIPNet && !a.ip.IsLoopback then
      match a.ip.To4 with
      | some ip4 => some (ip4String ip4)
      | none => firstLocalIPv4 rest
    else firstLocalIPv4 rest

/-- The function `guessLocalIPv4` (lines 88-100); `addrs` is the result of
`net.InterfaceAddrs()`, `none` for an error. -/
def guessLocalIPv4 (addrs : Option (List InterfaceAddr)) : List Char :=
  match addrs with
  | none => "127.0.0.1".toList
  | some l =>
    match firstLocalIPv4 l with
    | some g => g
    | none => "127.0.0.1".toList

/-- The struct `listenInfo`. -/
structure listenInfo where
  Binding : List Char
  Access : List Char
deriving DecidableEq, Repr

/-- The format `fmt.Sprintf("http://%s:%s", host, port)`. -/
def httpURL (host port : List Char) : List Char :=
  "http://".toList ++ host ++ ':' :: port

/-- The function `buildListenInfo` (lines 39-86); `splitHostPort` is
`net.SplitHostPort` (`none` for an error) and `addrs` the result of
`net.InterfaceAddrs()`. -/
def buildListenInfo (splitHostPort : List Char → Option (List Char × List Char))
    (addrs : Option (List InterfaceAddr)) (addr : List Char) : listenInfo :=
  let effective := if addr = [] then ":1080".toList else addr
  let split : Option (List Char × List Char) :=
    match splitHostPort effective with
    | some hp => some hp
    | none =>
      if [':'].isPrefixOf effective then some ([], effective.drop 1)
      else none
  match split with
  | none => ⟨effective, []⟩
  | some (host, port0) =>
    let port := if port0 = [] then "1080".toList else port0
    let rawHost := if host = [] then "0.0.0.0".toList else host
    let bindingHost :=
      if rawHost.contains ':' && !(['['].isPrefixOf rawHost) then '[' :: rawHost ++ [']']
      else rawHost
    let binding := httpURL bindingHost port
    if host = [] ∨ rawHost = "0.0.0.0".toList ∨ rawHost = "::".toList then
      let guess := guessLocalIPv4 addrs
      if guess ≠ [] then
        let guess1 :=
          if guess.contains ':' && !(['['].isPrefixOf guess) then '[' :: guess ++ [']']
          else guess
        ⟨binding, httpURL guess1 port⟩
      else ⟨binding, []⟩
    else ⟨binding, []⟩

/-! ## macOS: `ListenPacket` of `icmp_darwin.go` -/

/-- Go's `unicode.IsSpace`: the white-space code points. -/
def isSpace (c : Char) : Bool :=
  let n := c.toNat
  decide (n = 0x09 ∨ n = 0x0a ∨ n = 0x0b ∨ n = 0x0c ∨ n = 0x0d ∨ n = 0x20 ∨ n = 0x85 ∨
    n = 0xa0 ∨ n = 0x1680 ∨ (0x2000 ≤ n ∧ n ≤ 0x200a) ∨ n = 0x2028 ∨ n = 0x2029 ∨
    n = 0x202f ∨ n = 0x205f ∨ n = 0x3000)

/-- Go's `strings.TrimSpace`. -/
def trimSpace (s : List Char) : List Char :=
  ((s.dropWhile isSpace).reverse.dropWhile isSpace).reverse

/-- The function `parseIPStripZone` (lines 34-40); `parseIP` is `net.ParseIP`,
`none` for nil. -/
def parseIPStripZone (parseIP : List Char → Option IP) (address : List Char) : Option IP :=
  let address1 := trimSpace address
  let address2 :=
    if address1.contains '%' then address1.takeWhile (fun c => decide (c ≠ '%')) else address1
  parseIP address2

/-- The constant `syscall.AF_INET` of darwin. -/
def AF_INET : Int := 2

/-- The constant `syscall.AF_INET6` of darwin. -/
def AF_INET6 : Int := 30

/-- The constant `syscall.IPPROTO_ICMP`. -/
def IPPROTO_ICMP : Int := 1

/-- The constant `syscall.IPPROTO_ICMPV6`. -/
def IPPROTO_ICMPV6 : Int := 58

/-- The function `afProtoFromNetwork` (lines 22-31): family and protocol, `none`
when `ok` is false. -/
def afProtoFromNetwork (network : List Char) : Option (Int × Int) :=
  if network = "ip4:icmp".toList ∨ network = "ip4:1".toList then
    some (AF_INET, IPPROTO_ICMP)
  else if network = "ip6:ipv6-icmp".toList ∨ network = "ip6:58".toList then
    some (AF_INET6, IPPROTO_ICMPV6)
  else none

/-- The errors returned by `ListenPacket`: the three package errors, a failed
system call wrapped by `os.NewSyscallError`, and the error of
`net.FilePacketConn`. -/
inductive ListenError where
  | errUnknownNetwork
  | errUnknownIface
  | errIPFamilyMismatch
  | syscallError (name : String)
  | filePacketConnError
deriving DecidableEq, Repr

/-- The system calls made by `ListenPacket`. -/
inductive DarwinCall where
  | socket (af proto : Int)
  | closeOnExec
  | setsockoptBoundIf (af : Int) (ifIndex : Int)
  | bind (addr : Option IP) (zone : Int)
  | filePacketConn
  | close
deriving DecidableEq, Repr

/-- What the operating system answers during one call of `ListenPacket`:
`net.ParseIP`, `util.FindDeviceByIP`, `net.InterfaceByName` (the interface
index, `none` for an error) and the failure of each system call. -/
structure DarwinEnv where
  parseIP : List Char → Option IP
  findDeviceByIP : IP → List Char
  interfaceByName : List Char → Option Int
  socketErr : Bool
  setsockoptErr : Bool
  bindErr : Bool
  filePacketConnErr : Bool

/-- The system calls of one call of `ListenPacket` and its error, `none` when a
connection is returned. -/
structure ListenRun where
  calls : List DarwinCall
  err : Option ListenError
deriving DecidableEq, Repr

/-- The function `ifaceIndexFromAddress` (lines 43-60). -/
def ifaceIndexFromAddress (env : DarwinEnv) (address : List Char) : Except ListenError Int :=
  if address = [] then .ok (-1)
  else
    match parseIPStripZone env.parseIP address with
    | none => .error .errUnknownIface
    | some ip =>
      let name := env.findDeviceByIP ip
      if name = [] then .error .errUnknownIface
      else
        match env.interfaceByName name with
        | none => .error .errUnknownIface
        | some index => if index ≤ 0 then .error .errUnknownIface else .ok index

/-- Lines 95-153 of `ListenPacket`: the socket is created, bound when an address
was given, and handed to the `net` package; the deferred function closes it when
an error is returned after its creation. -/
def listenSocket (env : DarwinEnv) (af proto : Int) (address : List Char) (ip : Option IP)
    (ifIndex : Int) : ListenRun :=
  if env.socketErr then ⟨[.socket af proto], some (.syscallError "socket")⟩
  else
    let opened : List DarwinCall := [.socket af proto, .closeOnExec]
    let handOver (calls : List DarwinCall) : ListenRun :=
      if env.filePacketConnErr then ⟨calls ++ [.filePacketConn, .close], some .filePacketConnError⟩
      else ⟨calls ++ [.filePacketConn], none⟩
    if address ≠ [] ∧ (af = AF_INET ∨ af = AF_INET6) then
      let bound := if af = AF_INET then ip.bind IP.To4 else ip.bind IP.To16
      let zone := if af = AF_INET then 0 else toUint32 ifIndex
      if env.setsockoptErr then
        ⟨opened ++ [.setsockoptBoundIf af ifIndex, .close],
          some (.syscallError (if af = AF_INET then "setsockopt(IP_BOUND_IF)"
            else "setsockopt(IPV6_BOUND_IF)"))⟩
      else if env.bindErr then
        ⟨opened ++ [.setsockoptBoundIf af ifIndex, .bind bound zone, .close],
          some (.syscallError "bind")⟩
      else handOver (opened ++ [.setsockoptBoundIf af ifIndex, .bind bound zone])
    else handOver opened

/-- The function `ListenPacket` of `icmp_darwin.go` (lines 63-154). -/
def ListenPacket (env : DarwinEnv) (network address : List Char) : ListenRun :=
  match afProtoFromNetwork network with
  | none => ⟨[], some .errUnknownNetwork⟩
  | some (af, proto) =>
    let checked : Except ListenError (Option IP) :=
      if address ≠ [] then
        match parseIPStripZone env.parseIP address with
        | none => .error .errUnknownIface
        | some ip =>
          if af = AF_INET ∧ ip.To4 = none then .error .errIPFamilyMismatch
          else if af = AF_INET6 ∧ (ip.To16 = none ∨ ip.To4 ≠ none) then
            .error .errIPFamilyMismatch
          else .ok (some ip)
      else .ok none
    match checked with
    | .error e => ⟨[], some e⟩
    | .ok ip =>
      let index : Except ListenError Int :=
        if address ≠ [] then ifaceIndexFromAddress env address else .ok (-1)
      match index with
      | .error e => ⟨[], some e⟩
      | .ok ifIndex => listenSocket env af proto address ip ifIndex

/-! ## DN42: `FindPtrRecord` of `ptr.go` -/

/-- The struct `PtrRow`. -/
structure PtrRow where
  IATACode : List Char
  LtdCode : List Char
  Region : List Char
  City : List Char
deriving DecidableEq, Repr

/-- The function `matchesPattern` (lines 25-35).  `regexMatch pattern s` is
`regexp.Compile(pattern)` followed by `MatchString(s)`, `none` when the pattern
does not compile. -/
def matchesPattern (regexMatch : List Char → List Char → Option Bool) (pre s : List Char) :
    Bool :=
  let pattern := "^(.*[-.\\d]|^)".toList ++ pre ++ "[-.\\d].*$".toList
  match regexMatch pattern s with
  | none => false
  | some b => b

/-- How one of the two loops of `FindPtrRecord` ends: with the panic of an index
out of range, with a `return` of a row, or after the last row. -/
inductive LoopExit where
  | panicked
  | returned (row : PtrRow)
  | done
deriving DecidableEq, Repr

/-- The first loop of `FindPtrRecord` (lines 73-88), over the city names;
`toLower` is `strings.ToLower` and `ptr` is already in lower case. -/
def cityLoop (regexMatch : List Char → List Char → Option Bool)
    (toLower : List Char → List Char) (ptr : List Char) : List (List (List Char)) → LoopExit
  | [] => .done
  | row :: rest =>
    match row.get? 3 with
    | none => .panicked
    | some city =>
      if city = [] then cityLoop regexMatch toLower ptr rest
      else
        let city1 := city.filter (fun c => decide (c ≠ ' '))
        let city2 := toLower city1
        if matchesPattern regexMatch city2 ptr then
          match row.get? 1, row.get? 2, row.get? 3 with
          | some ltd, some region, some c => .returned ⟨[], ltd, region, c⟩
          | _, _, _ => .panicked
        else cityLoop regexMatch toLower ptr rest

/-- The second loop of `FindPtrRecord` (lines 90-104), over the IATA codes. -/
def iataLoop (regexMatch : List Char → List Char → Option Bool)
    (toLower : List Char → List Char) (ptr : List Char) : List (List (List Char)) → LoopExit
  | [] => .done
  | row :: rest =>
    match row.get? 0 with
    | none => .panicked
    | some iata =>
      if iata = [] then iataLoop regexMatch toLower ptr rest
      else
        let iata1 := toLower iata
        if matchesPattern regexMatch iata1 ptr then
          match row.get? 1, row.get? 2, row.get? 3 with
          | some ltd, some region, some c => .returned ⟨iata1, ltd, region, c⟩
          | _, _, _ => .panicked
        else iataLoop regexMatch toLower ptr rest

/-- The result of `FindPtrRecord`: a panic, a row with a nil error, or the empty
row with the error "ptr not found". -/
inductive PtrResult where
  | panicked
  | found (row : PtrRow)
  | notFound
deriving DecidableEq, Repr

/-- The function `FindPtrRecord` (lines 64-107) on the rows returned by
`getPtr` without error. -/
def FindPtrRecord (regexMatch : List Char → List Char → Option Bool)
    (toLower : List Char → List Char) (rows : List (List (List Char))) (ptr : List Char) :
    PtrResult :=
  let ptr1 := toLower ptr
  match cityLoop regexMatch toLower ptr1 rows with
  | .panicked => .panicked
  | .returned row => .found row
  | .done =>
    match iataLoop regexMatch toLower ptr1 rows with
    | .panicked => .panicked
    | .returned row => .found row
    | .done => .notFound

/-- The city test as the claim words it: the city of the row is non-empty and
its space-stripped lower-case form matches the lower-cased `ptr`. -/
def cityMatches (regexMatch : List Char → List Char → Option Bool)
    (toLower : List Char → List Char) (ptr : List Char) (row : List (List Char)) : Bool :=
  decide (row.getD 3 [] ≠ []) &&
    matchesPattern regexMatch (toLower ((row.getD 3 []).filter (fun c => decide (c ≠ ' '))))
      (toLower ptr)

/-- The IATA test as the claim words it: the code of the row is non-empty and its
lower-case form matches the lower-cased `ptr`. -/
def iataMatches (regexMatch : List Char → List Char → Option Bool)
    (toLower : List Char → List Char) (ptr : List Char) (row : List (List Char)) : Bool :=
  decide (row.getD 0 [] ≠ []) &&
    matchesPattern regexMatch (toLower (row.getD 0 [])) (toLower ptr)

/-- The lookup as the claim words it: the first row whose city matches, else the
first row whose IATA code matches, else "ptr not found". -/
def FindPtrRecordSpec (regexMatch : List Char → List Char → Option Bool)
    (toLower : List Char → List Char) (rows : List (List (List Char))) (ptr : List Char) :
    PtrResult :=
  match rows.find? (cityMatches regexMatch toLower ptr) with
  | some row => .found ⟨[], row.getD 1 [], row.getD 2 [], row.getD 3 []⟩
  | none =>
    match rows.find? (iataMatches regexMatch toLower ptr) with
    | some row => .found ⟨toLower (row.getD 0 []), row.getD 1 [], row.getD 2 [], row.getD 3 []⟩
    | none => .notFound

/-! ## Globalping: `GlobalpingTraceroute` of `globalping.go` -/

/-- The struct `globalping.MTRTiming`; the float `RTT` enters the result only
through the conversion to a duration, which is a parameter below, and is
carried here by an integer code. -/
structure MTRTiming where
  RTT : Int
deriving DecidableEq, Repr

/-- The fields of `globalping.MTRHop` read by the modelled code. -/
structure MTRHop where
  ResolvedAddress : List Char
  ResolvedHostname : List Char
  Timings : List MTRTiming
deriving DecidableEq, Repr

/-- The function `mapGlobalpingHop` (lines 117-144) on the fields of `Hop`
represented here; `parseIP` is `net.ParseIP` and `duration` the conversion
`time.Duration(timing.RTT * float64(time.Millisecond))`.  `timing` is `none`
for a nil pointer. -/
def mapGlobalpingHop (parseIP : List Char → Option IP) (duration : MTRTiming → Int)
    (ttl : Int) (gpHop : MTRHop) (timing : Option MTRTiming) : Hop :=
  let hop0 : Hop := ⟨false, none, ttl, 0, none, []⟩
  let hop1 : Hop :=
    if gpHop.ResolvedAddress ≠ [] then { hop0 with Address := parseIP gpHop.ResolvedAddress }
    else hop0
  match timing with
  | none => hop1
  | some t => { hop1 with Success := true, RTT := duration t }

/-- The first loop of `GlobalpingTraceroute` (lines 96-100): `maxTimings`. -/
def maxTimingsOf (gpHops : List MTRHop) : Nat :=
  gpHops.foldl (fun m h => max m h.Timings.length) 1

/-- The inner loop of `GlobalpingTraceroute` (lines 102-110) for the MTR hop of
index `i`: one hop per `j` below `maxTimings`. -/
def slotOf (parseIP : List Char → Option IP) (duration : MTRTiming → Int) (maxTimings : Nat)
    (i : Nat) (gpHop : MTRHop) : List Hop :=
  (List.range maxTimings).map (fun j =>
    mapGlobalpingHop parseIP duration ((i : Int) + 1) gpHop
      (if j < gpHop.Timings.length then gpHop.Timings[j]? else none))

/-- The outer loop of `GlobalpingTraceroute` (lines 101-112) from index `i`,
with `acc` the value of `result.Hops` so far. -/
def appendSlots (parseIP : List Char → Option IP) (duration : MTRTiming → Int)
    (maxTimings : Nat) : Nat → List MTRHop → List (List Hop) → List (List Hop)
  | _, [], acc => acc
  | i, h :: rest, acc =>
    appendSlots parseIP duration maxTimings (i + 1) rest
      (acc ++ [slotOf parseIP duration maxTimings i h])

/-- Lines 94-112 of `GlobalpingTraceroute`: the `Hops` of the result built from
the decoded MTR hops. -/
def globalpingHops (parseIP : List Char → Option IP) (duration : MTRTiming → Int)
    (gpHops : List MTRHop) : List (List Hop) :=
  appendSlots parseIP duration (maxTimingsOf gpHops) 0 gpHops []

/-! ## Sample inputs -/

/-- A run towards 2001:db8::1 with 30 hops, 3 measurements per hop and no
payload. -/
def sampleConfig : Config :=
  { BeginHop := 1, MaxHops := 30, NumMeasurements := 3, MaxAttempts := 255, PktSize := 0,
    DestIP := [0x20, 0x01, 0x0d, 0xb8, 0, 0, 0, 0, 0, 0, 0, 0, 0, 0, 0, 1] }

/-- The result slots as `Execute` allocates them: `MaxHops` empty slots. -/
def sampleHops : List (List Hop) := List.replicate 30 []

/-- A probe that is sent while no final TTL is known and times out after the
destination has answered at TTL 3. -/
def envTimeoutBeyondFinal : SendEnv :=
  { hops1 := sampleHops, acquireErr := none, final1 := -1, hops2 := sampleHops,
    serializeErr := none, setHopLimitErr := none, writeErr := none,
    event := .timeout, rtt := 0, final2 := 3 }

/-- A probe answered by a router at 2001:db8::ff while no final TTL is known. -/
def envRouterReply : SendEnv :=
  { hops1 := sampleHops, acquireErr := none, final1 := -1, hops2 := sampleHops,
    serializeErr := none, setHopLimitErr := none, writeErr := none,
    event := .reply ⟨true, some [0x20, 0x01, 0x0d, 0xb8, 0, 0, 0, 0, 0, 0, 0, 0, 0, 0, 0, 0xff],
      0, 0, none, []⟩,
    rtt := 12, final2 := -1 }

/-- A probe whose packet cannot be serialised. -/
def envSerializeError : SendEnv :=
  { hops1 := sampleHops, acquireErr := none, final1 := -1, hops2 := sampleHops,
    serializeErr := some (.other "serialize"), setHopLimitErr := none, writeErr := none,
    event := .timeout, rtt := 0, final2 := -1 }

/-- The Unix listener of a run towards 2001:db8::1, port 443, with 16 payload
bytes. -/
def sampleSpec : TCPSpec :=
  { IPVersion := 6, DstIP := sampleConfig.DestIP, DstPort := 443, PktSize := 16 }

/-- An RST+ACK segment from port 443 acknowledging 50331666. -/
def sampleRstAck : TCPLayer :=
  { SrcPort := 443, DstPort := 50000, Ack := 50331666, ACK := true, SYN := false, RST := true }

/-- A quoted IPv6 header (40 bytes) from 2001:db8::2 to 2001:db8::1, followed by
the first 8 bytes of the TCP header of the probe. -/
def sampleQuoted : List Nat :=
  [0x60, 0, 0, 0, 0, 20, 6, 1,
   0x20, 0x01, 0x0d, 0xb8, 0, 0, 0, 0, 0, 0, 0, 0, 0, 0, 0, 2,
   0x20, 0x01, 0x0d, 0xb8, 0, 0, 0, 0, 0, 0, 0, 0, 0, 0, 0, 1,
   0xc3, 0x50, 0x01, 0xbb, 0x03, 0, 0, 0x01]

/-- A message of 96 bytes received from the router 2001:db8::2; its bytes are
read by `icmp.ParseMessage` only and are left out. -/
def sampleReceived : ReceivedMessage :=
  { N := some 96, Msg := [],
    Peer := some [0x20, 0x01, 0x0d, 0xb8, 0, 0, 0, 0, 0, 0, 0, 0, 0, 0, 0, 2] }

/-- The three hops recorded for one TTL, all answered by the router
2001:db8::ff. -/
def sampleSlot (ttl : Int) : List Hop :=
  List.replicate 3
    ⟨true, some [0x20, 0x01, 0x0d, 0xb8, 0, 0, 0, 0, 0, 0, 0, 0, 0, 0, 0, 0xff], ttl, 12, none, []⟩

/-- The result slots of a run of `sampleConfig` in which TTL 1 and TTL 2 are
complete and nothing was recorded for the other 28 TTLs. -/
def hopsAfterTwo : List (List Hop) :=
  [sampleSlot 1, sampleSlot 2] ++ List.replicate 28 []

/-- A configuration whose first TTL lies above the last one (`--first 5
--max-hops 3`). -/
def configFirstAboveMax : Config :=
  { sampleConfig with BeginHop := 5, MaxHops := 3 }

/-- A file system that holds the bytes 1, 2, 3 at `WinDivert.dll` and nothing
else. -/
def sampleFS : FileSystem :=
  fun p => if p = "WinDivert.dll" then some [1, 2, 3] else none

/-- An operating system that reports no failure. -/
def noFailure : FileEnv := { openErr := none, readErr := none, writeErr := none }

/-- An operating system on which `os.Open` fails and the write succeeds. -/
def openFails : FileEnv :=
  { openErr := some (.other "open: permission denied"), readErr := none, writeErr := none }

/-- A run started with `--first 0`. -/
def configFirstZero : Config :=
  { sampleConfig with BeginHop := 0 }

/-- A macOS host on which `net.ParseIP` accepts nothing, no device is found
and every system call succeeds. -/
def noParseEnv : DarwinEnv :=
  { parseIP := fun _ => none, findDeviceByIP := fun _ => [], interfaceByName := fun _ => none,
    socketErr := false, setsockoptErr := false, bindErr := false, filePacketConnErr := false }

/-- Three decoded MTR hops with 2, 0 and 3 timings. -/
def sampleMTR : List MTRHop :=
  [⟨"10.0.0.1".toList, [], [⟨1⟩, ⟨2⟩]⟩, ⟨[], [], []⟩,
   ⟨"10.0.0.3".toList, [], [⟨3⟩, ⟨4⟩, ⟨5⟩]⟩]

/-- A pointer table of two rows: IATA code, owner, region, city. -/
def sampleTable : List (List (List Char)) :=
  [["lax".toList, "ltd1".toList, "us".toList, "Los Angeles".toList],
   ["fra".toList, "ltd2".toList, "de".toList, "Frankfurt".toList]]

/-- A stand-in for the regular-expression engine that accepts exactly the
pattern built for the city `frankfurt`. -/
def frankfurtOnly (pattern _s : List Char) : Option Bool :=
  some (decide (pattern = "^(.*[-.\\d]|^)frankfurt[-.\\d].*$".toList))

/-- Lower-casing of ASCII letters, in place of `strings.ToLower`. -/
def asciiLower (s : List Char) : List Char := s.map Char.toLower

/-! ## Arithmetic helpers -/

theorem wrapInt64_of_range (x : Int) (h0 : -9223372036854775808 ≤ x)
    (h1 : x < 9223372036854775808) : wrapInt64 x = x := by
  unfold wrapInt64
  omega

/-- On the probe range the key is the plain sum `ttl * 2^24 + i`. -/
theorem encodeSeq_eq_add (ttl i : Int) (ht0 : 0 ≤ ttl) (ht1 : ttl ≤ 255)
    (hi0 : 0 ≤ i) (hi1 : i < 16777216) :
    encodeSeq ttl i = ttl * 16777216 + i := by
  obtain ⟨t, rfl⟩ := Int.eq_ofNat_of_zero_le ht0
  obtain ⟨a, rfl⟩ := Int.eq_ofNat_of_zero_le hi0
  have ht : t ≤ 255 := by omega
  have ha : a < 2 ^ 24 := by norm_num; omega
  unfold encodeSeq
  rw [wrapInt64_of_range _ (by omega) (by omega)]
  have e1 : ((t : Int) * 16777216) = ((2 ^ 24 * t : Nat) : Int) := by
    push_cast; ring
  have e2 : Int.land (a : Int) 0xFFFFFF = ((a &&& (2 ^ 24 - 1) : Nat) : Int) := rfl
  rw [e1, e2, Nat.and_pow_two_sub_one_eq_mod, Nat.mod_eq_of_lt ha]
  have e3 : Int.lor ((2 ^ 24 * t : Nat) : Int) (a : Int)
      = (((2 ^ 24 * t) ||| a : Nat) : Int) := rfl
  rw [e3, ← Nat.mul_add_lt_is_or ha t]
  push_cast
  ring

/-! ## Probe sequence encoding on either width of `int` -/

/-- The 64-bit instance of `wrapInt` is `wrapInt64`. -/
theorem wrapInt_sixty_four (x : Int) : wrapInt 64 x = wrapInt64 x := by
  unfold wrapInt wrapInt64
  norm_num

/-- The 64-bit instance of `encodeSeqW` is `encodeSeq`. -/
theorem encodeSeqW_sixty_four (ttl i : Int) : encodeSeqW 64 ttl i = encodeSeq ttl i := by
  unfold encodeSeqW encodeSeq
  rw [wrapInt_sixty_four]

/-- Clearing the bits of `n < 2^24` in a number whose low 24 bits are all set. -/
theorem ldiff_low_ones (a n : Nat) (hn : n < 2 ^ 24) :
    Nat.ldiff (2 ^ 24 * a + (2 ^ 24 - 1)) n = 2 ^ 24 * a + (2 ^ 24 - (n + 1)) := by
  apply Nat.eq_of_testBit_eq
  intro j
  have h1 : 2 ^ 24 - 1 < 2 ^ 24 := by norm_num
  have h2 : 2 ^ 24 - (n + 1) < 2 ^ 24 := by omega
  rw [Nat.testBit_ldiff, Nat.testBit_mul_pow_two_add a h1, Nat.testBit_mul_pow_two_add a h2,
    Nat.testBit_two_pow_sub_one, Nat.testBit_two_pow_sub_succ hn]
  by_cases hj : j < 24
  · simp [hj]
  · have hnj : n.testBit j = false := by
      apply Nat.testBit_eq_false_of_lt
      calc n < 2 ^ 24 := hn
        _ ≤ 2 ^ j := Nat.pow_le_pow_right (by norm_num) (by omega)
    simp [hj, hnj]

/-- With a 32-bit `int` and ttl below 128 the shift does not overflow and the
key is the plain sum. -/
theorem encodeSeqW_low (ttl i : Int) (ht0 : 0 ≤ ttl) (ht1 : ttl ≤ 127)
    (hi0 : 0 ≤ i) (hi1 : i < 16777216) :
    encodeSeqW 32 ttl i = ttl * 16777216 + i := by
  have hw : wrapInt 32 (ttl * 16777216) = wrapInt64 (ttl * 16777216) := by
    unfold wrapInt wrapInt64
    norm_num
    omega
  unfold encodeSeqW
  rw [hw]
  exact encodeSeq_eq_add ttl i ht0 (by omega) hi0 hi1

/-- With a 32-bit `int` and ttl from 128 on the shift overflows into the sign
bit and the key is the sum less `2^32`. -/
theorem encodeSeqW_high (ttl i : Int) (ht0 : 128 ≤ ttl) (ht1 : ttl ≤ 255)
    (hi0 : 0 ≤ i) (hi1 : i < 16777216) :
    encodeSeqW 32 ttl i = ttl * 16777216 + i - 4294967296 := by
  obtain ⟨t, rfl⟩ := Int.eq_ofNat_of_zero_le (show 0 ≤ ttl by omega)
  obtain ⟨a, rfl⟩ := Int.eq_ofNat_of_zero_le hi0
  have ht : t ≤ 255 := by omega
  have ht2 : 128 ≤ t := by omega
  have ha : a < 2 ^ 24 := by norm_num; omega
  have hw : wrapInt 32 ((t : Int) * 16777216)
      = Int.negSucc (2 ^ 24 * (255 - t) + (2 ^ 24 - 1)) := by
    unfold wrapInt
    rw [Int.negSucc_eq]
    norm_num
    omega
  have e2 : Int.land (a : Int) 0xFFFFFF = ((a &&& (2 ^ 24 - 1) : Nat) : Int) := rfl
  unfold encodeSeqW
  rw [hw, e2, Nat.and_pow_two_sub_one_eq_mod, Nat.mod_eq_of_lt ha]
  have e3 : Int.lor (Int.negSucc (2 ^ 24 * (255 - t) + (2 ^ 24 - 1))) (a : Int)
      = Int.negSucc (Nat.ldiff (2 ^ 24 * (255 - t) + (2 ^ 24 - 1)) a) := rfl
  rw [e3, ldiff_low_ones _ _ ha, Int.negSucc_eq]
  norm_num
  omega

/-- On either width the 32-bit sequence number `uint32(seq)` is the plain sum. -/
theorem toUint32_encodeSeqW (w : Nat) (hw : w = 32 ∨ w = 64) (ttl i : Int)
    (ht0 : 0 ≤ ttl) (ht1 : ttl ≤ 255) (hi0 : 0 ≤ i) (hi1 : i < 16777216) :
    toUint32 (encodeSeqW w ttl i) = ttl * 16777216 + i := by
  rcases hw with rfl | rfl
  · by_cases h : ttl ≤ 127
    · rw [encodeSeqW_low ttl i ht0 h hi0 hi1]
      unfold toUint32
      omega
    · rw [encodeSeqW_high ttl i (by omega) ht1 hi0 hi1]
      unfold toUint32
      omega
  · rw [encodeSeqW_sixty_four, encodeSeq_eq_add ttl i ht0 ht1 hi0 hi1]
    unfold toUint32
    omega

/-- The decoding `(x >> 24, x & 0xFFFFFF)` of a plain sum `ttl * 2^24 + i`. -/
theorem decode_sum (ttl i : Int) (ht0 : 0 ≤ ttl) (hi0 : 0 ≤ i) (hi1 : i < 16777216) :
    Int.shiftRight (ttl * 16777216 + i) 24 = ttl ∧
    Int.land (ttl * 16777216 + i) 0xFFFFFF = i := by
  refine ⟨?_, ?_⟩
  · have h : Int.shiftRight (ttl * 16777216 + i) 24
        = (ttl * 16777216 + i) / ((2 ^ 24 : Nat) : Int) :=
      Int.shiftRight_eq_div_pow (ttl * 16777216 + i) 24
    rw [h]
    norm_num
    omega
  · obtain ⟨t, rfl⟩ := Int.eq_ofNat_of_zero_le ht0
    obtain ⟨a, rfl⟩ := Int.eq_ofNat_of_zero_le hi0
    have e1 : ((t : Int) * 16777216 + (a : Int)) = ((t * 16777216 + a : Nat) : Int) := by
      push_cast; ring
    have e2 : Int.land ((t * 16777216 + a : Nat) : Int) 0xFFFFFF
        = (((t * 16777216 + a) &&& (2 ^ 24 - 1) : Nat) : Int) := rfl
    rw [e1, e2, Nat.and_pow_two_sub_one_eq_mod]
    norm_num
    omega

/-! ## Probe sequence round trip -/

/-- On a 64-bit `int`, for every ttl in [1,255] and attempt index in
[0, MaxAttempts) with MaxAttempts <= 255, the key of `encodeSeq` decodes back
as `(seq >> 24, seq & 0xFFFFFF) = (ttl, attempt)`, and two pairs of that range
with the same key are the same pair. -/
theorem encodeSeq_roundtrip (maxAttempts ttl i : Int) (hm : maxAttempts ≤ 255)
    (ht0 : 1 ≤ ttl) (ht1 : ttl ≤ 255) (hi0 : 0 ≤ i) (hi1 : i < maxAttempts) :
    Int.shiftRight (encodeSeq ttl i) 24 = ttl ∧
    Int.land (encodeSeq ttl i) 0xFFFFFF = i ∧
    ∀ ttl2 i2 : Int, 1 ≤ ttl2 → ttl2 ≤ 255 → 0 ≤ i2 → i2 < maxAttempts →
      encodeSeq ttl2 i2 = encodeSeq ttl i → ttl2 = ttl ∧ i2 = i := by
  have hkey := encodeSeq_eq_add ttl i (by omega) ht1 hi0 (by omega)
  have hd := decode_sum ttl i (by omega) hi0 (by omega)
  refine ⟨?_, ?_, ?_⟩
  · rw [hkey]
    exact hd.1
  · rw [hkey]
    exact hd.2
  · intro ttl2 i2 h1 h2 h3 h4 heq
    rw [hkey, encodeSeq_eq_add ttl2 i2 (by omega) h2 h3 (by omega)] at heq
    omega

/-- C1 fails as stated where Go's `int` has 32 bits (386, arm): for ttl = 200
and attempt 5, both inside the claim's range, `ttl << 24` overflows into the
sign bit, the key is -939524091 and `seq >> 24` is -56, not 200. -/
theorem encodeSeq_narrow_int_decode :
    encodeSeqW 32 200 5 = -939524091 ∧
    Int.shiftRight (encodeSeqW 32 200 5) 24 = -56 ∧
    Int.shiftRight (encodeSeqW 32 200 5) 24 ≠ 200 := by
  have h : encodeSeqW 32 200 5 = -939524091 := by
    rw [encodeSeqW_high 200 5 (by decide) (by decide) (by decide) (by decide)]
    rfl
  rw [h]
  decide

/-- C1, amended: for every ttl in [1,255] and attempt index in [0, MaxAttempts)
with MaxAttempts <= 255, the key `(ttl << 24) | (attempt & 0xFFFFFF)` computed
by `send` decodes back as `(seq >> 24, seq & 0xFFFFFF) = (ttl, attempt)` where
Go's `int` has 64 bits, and where it has 32 bits when ttl <= 127; for an `int`
of 32 or of 64 bits the sequence number `uint32(seq)` is `ttl * 2^24 + attempt`
and decodes back as `(uint32(seq) >> 24, uint32(seq) & 0xFFFFFF) =
(ttl, attempt)`, and two pairs of that range with the same key are the same
pair. -/
theorem encodeSeq_roundtrip_by_width (maxAttempts ttl i : Int) (hm : maxAttempts ≤ 255)
    (ht0 : 1 ≤ ttl) (ht1 : ttl ≤ 255) (hi0 : 0 ≤ i) (hi1 : i < maxAttempts) :
    (Int.shiftRight (encodeSeqW 64 ttl i) 24 = ttl ∧
      Int.land (encodeSeqW 64 ttl i) 0xFFFFFF = i) ∧
    (ttl ≤ 127 → Int.shiftRight (encodeSeqW 32 ttl i) 24 = ttl ∧
      Int.land (encodeSeqW 32 ttl i) 0xFFFFFF = i) ∧
    ∀ w : Nat, w = 32 ∨ w = 64 →
      toUint32 (encodeSeqW w ttl i) = ttl * 16777216 + i ∧
      Int.shiftRight (toUint32 (encodeSeqW w ttl i)) 24 = ttl ∧
      Int.land (toUint32 (encodeSeqW w ttl i)) 0xFFFFFF = i ∧
      ∀ ttl2 i2 : Int, 1 ≤ ttl2 → ttl2 ≤ 255 → 0 ≤ i2 → i2 < maxAttempts →
        encodeSeqW w ttl2 i2 = encodeSeqW w ttl i → ttl2 = ttl ∧ i2 = i := by
  have hd := decode_sum ttl i (by omega) hi0 (by omega)
  refine ⟨?_, ?_, ?_⟩
  · rw [encodeSeqW_sixty_four, encodeSeq_eq_add ttl i (by omega) ht1 hi0 (by omega)]
    exact hd
  · intro hlow
    rw [encodeSeqW_low ttl i (by omega) hlow hi0 (by omega)]
    exact hd
  · intro w hw
    have hu := toUint32_encodeSeqW w hw ttl i (by omega) ht1 hi0 (by omega)
    refine ⟨hu, ?_, ?_, ?_⟩
    · rw [hu]
      exact hd.1
    · rw [hu]
      exact hd.2
    · intro ttl2 i2 h1 h2 h3 h4 heq
      have hu2 := toUint32_encodeSeqW w hw ttl2 i2 (by omega) h2 h3 (by omega)
      rw [heq, hu] at hu2
      omega

/-- Witness of C1 at ttl = 100 and attempt 5 of MaxAttempts = 255. -/
theorem encodeSeq_roundtrip_by_width_witness :
    (Int.shiftRight (encodeSeqW 64 100 5) 24 = 100 ∧
      Int.land (encodeSeqW 64 100 5) 0xFFFFFF = 5) ∧
    ((100 : Int) ≤ 127 → Int.shiftRight (encodeSeqW 32 100 5) 24 = 100 ∧
      Int.land (encodeSeqW 32 100 5) 0xFFFFFF = 5) ∧
    ∀ w : Nat, w = 32 ∨ w = 64 →
      toUint32 (encodeSeqW w 100 5) = 100 * 16777216 + 5 ∧
      Int.shiftRight (toUint32 (encodeSeqW w 100 5)) 24 = 100 ∧
      Int.land (toUint32 (encodeSeqW w 100 5)) 0xFFFFFF = 5 ∧
      ∀ ttl2 i2 : Int, 1 ≤ ttl2 → ttl2 ≤ 255 → 0 ≤ i2 → i2 < 255 →
        encodeSeqW w ttl2 i2 = encodeSeqW w 100 5 → ttl2 = 100 ∧ i2 = 5 :=
  encodeSeq_roundtrip_by_width 255 100 5 (by decide) (by decide) (by decide) (by decide)
    (by decide)

/-! ## TCP ack recovery -/

/-- C2: for ttl in [1,255], attempt in [0,255) and payload size p in [0,65535],
with s the key registered by `send` and `uint32(s)` the sequence number on the
wire, a SYN-ACK acknowledging `(s + 1) mod 2^32` and an RST-ACK acknowledging
`(s + 1 + p) mod 2^32` (p = PktSize) are both mapped back to the key s, by the
reply callback of `Execute` and by the flag dispatch of `TCPSpec.ListenTCP`. -/
theorem ack_recovers_key (ttl i p : Int) (ht0 : 1 ≤ ttl) (ht1 : ttl ≤ 255)
    (hi0 : 0 ≤ i) (hi1 : i < 255) (hp0 : 0 ≤ p) (hp1 : p ≤ 65535) :
    onTCPSeq p (toUint32 (toUint32 (encodeSeq ttl i) + 1)) 2 = encodeSeq ttl i ∧
    onTCPSeq p (toUint32 (toUint32 (encodeSeq ttl i) + 1 + p)) 1 = encodeSeq ttl i ∧
    (∀ (sp : TCPSpec) (tl : TCPLayer), sp.PktSize = p →
      tl.ACK = true → tl.SYN = true → tl.RST = false →
      tl.Ack = toUint32 (toUint32 (encodeSeq ttl i) + 1) →
      sp.recoverSeq tl = some (encodeSeq ttl i)) ∧
    (∀ (sp : TCPSpec) (tl : TCPLayer), sp.PktSize = p →
      tl.ACK = true → tl.RST = true →
      tl.Ack = toUint32 (toUint32 (encodeSeq ttl i) + 1 + p) →
      sp.recoverSeq tl = some (encodeSeq ttl i)) := by
  have hkey := encodeSeq_eq_add ttl i (by omega) ht1 hi0 (by omega)
  have hs0 : 0 ≤ encodeSeq ttl i := by omega
  have hs1 : encodeSeq ttl i ≤ 4278190334 := by omega
  generalize encodeSeq ttl i = s at hs0 hs1
  have a1 : toUint32 (toUint32 s + 1) = s + 1 := by
    unfold toUint32; omega
  have a2 : toUint32 (toUint32 s + 1 + p) = s + 1 + p := by
    unfold toUint32; omega
  have r0 : wrapInt64 s = s := by
    unfold wrapInt64; omega
  have r2 : wrapInt64 (wrapInt64 (s + 1 + p - 1) - p) = s := by
    unfold wrapInt64; omega
  refine ⟨?_, ?_, ?_, ?_⟩
  · simp [onTCPSeq, a1, r0]
  · simp [onTCPSeq, a2, r2]
  · intro sp tl _ hA hS hR hAck
    simp [TCPSpec.recoverSeq, hA, hS, hR, hAck, a1, r0]
  · intro sp tl hp hA hR hAck
    simp [TCPSpec.recoverSeq, hA, hR, hAck, a2, hp, r2]

/-- Witness of C2 at the top of the range: ttl 255, attempt 254, payload 65535. -/
theorem ack_recovers_key_witness :
    onTCPSeq 65535 (toUint32 (toUint32 (encodeSeq 255 254) + 1)) 2 = encodeSeq 255 254 ∧
    onTCPSeq 65535 (toUint32 (toUint32 (encodeSeq 255 254) + 1 + 65535)) 1
      = encodeSeq 255 254 :=
  have h := ack_recovers_key 255 254 65535 (by decide) (by decide) (by decide) (by decide)
    (by decide) (by decide)
  ⟨h.1, h.2.1⟩

/-! ## The final TTL only moves downward -/

theorem replyFinal_dest (f t : Int) (h0 : 1 ≤ t) (h1 : t < 2147483648) :
    replyFinal f t true = if f = -1 ∨ t < f then t else f := by
  have e : toInt32 t = t := by unfold toInt32; omega
  unfold replyFinal casFinal
  rw [e]
  by_cases hf : f = -1
  · simp [hf]
  · by_cases hlt : t < f
    · have h2 : ¬ t > f := by omega
      have h3 : ¬ t ≥ f := by omega
      simp [hf, hlt, h2, h3]
    · by_cases hgt : t > f
      · simp [hf, hlt, hgt]
      · have h3 : t ≥ f := by omega
        simp [hf, hlt, hgt, h3]

theorem foldl_replyFinal (ts : List Int) (hts : ∀ t ∈ ts, 1 ≤ t ∧ t < 2147483648) :
    ∀ f : Int, f = -1 ∨ 1 ≤ f →
      (ts.foldl (fun f t => replyFinal f t true) f = f ∨
        ts.foldl (fun f t => replyFinal f t true) f ∈ ts) ∧
      (f ≠ -1 → ts.foldl (fun f t => replyFinal f t true) f ≤ f) ∧
      (∀ t ∈ ts, ts.foldl (fun f t => replyFinal f t true) f ≤ t) ∧
      (f ≠ -1 ∨ ts ≠ [] → 1 ≤ ts.foldl (fun f t => replyFinal f t true) f) := by
  induction ts with
  | nil =>
    intro f hf
    refine ⟨Or.inl rfl, fun _ => le_refl _, ?_, ?_⟩
    · intro t ht
      cases ht
    · intro h
      show 1 ≤ f
      rcases h with h | h
      · omega
      · exact absurd rfl h
  | cons a rest ih =>
    intro f hf
    have ha := hts a (List.mem_cons_self a rest)
    have hrest : ∀ t ∈ rest, 1 ≤ t ∧ t < 2147483648 :=
      fun t ht => hts t (List.mem_cons_of_mem a ht)
    have hstep := replyFinal_dest f a ha.1 ha.2
    have hf1 : 1 ≤ replyFinal f a true := by
      rw [hstep]
      split <;> omega
    obtain ⟨i1, i2, i3, i4⟩ := ih hrest (replyFinal f a true) (Or.inr hf1)
    simp only [List.foldl_cons]
    have hle : (f ≠ -1 → replyFinal f a true ≤ f) ∧ replyFinal f a true ≤ a := by
      rw [hstep]
      split <;> constructor <;> intros <;> omega
    have i2b := i2 (by omega)
    refine ⟨?_, ?_, ?_, ?_⟩
    · rcases i1 with h | h
      · rw [h, hstep]
        split
        · exact Or.inr (List.mem_cons_self a rest)
        · exact Or.inl rfl
      · exact Or.inr (List.mem_cons_of_mem a h)
    · intro hne
      exact le_trans i2b (hle.1 hne)
    · intro t ht
      rcases List.mem_cons.mp ht with h | h
      · rw [h]
        exact le_trans i2b hle.2
      · exact i3 t h
    · intro _
      exact i4 (Or.inl (by omega))

/-- C3: a destination reply for TTL t sets `final` to t exactly when `final` is
-1 or t < final and leaves it unchanged otherwise (a reply from another peer
never changes it); so `final` never increases, never returns to -1 once set,
and after any sequence of destination replies (TTLs at least 1 and within
int32) it is -1 when nothing was processed and the smallest processed TTL
otherwise. -/
theorem final_only_decreases (ts : List Int) (hts : ∀ t ∈ ts, 1 ≤ t ∧ t < 2147483648) :
    (∀ f t : Int, 1 ≤ t → t < 2147483648 →
      replyFinal f t true = if f = -1 ∨ t < f then t else f) ∧
    (∀ f t : Int, replyFinal f t false = f) ∧
    (∀ f t : Int, 1 ≤ t → t < 2147483648 → f ≠ -1 →
      replyFinal f t true ≤ f ∧ replyFinal f t true ≠ -1) ∧
    (ts = [] → finalAfter ts = -1) ∧
    (ts ≠ [] → finalAfter ts ∈ ts ∧ ∀ t ∈ ts, finalAfter ts ≤ t) := by
  refine ⟨replyFinal_dest, ?_, ?_, ?_, ?_⟩
  · intro f t
    unfold replyFinal
    split <;> simp
  · intro f t h0 h1 hf
    rw [replyFinal_dest f t h0 h1]
    split <;> constructor <;> omega
  · intro h
    rw [h]
    rfl
  · intro hne
    obtain ⟨i1, _, i3, i4⟩ := foldl_replyFinal ts hts (-1) (Or.inl rfl)
    have hpos := i4 (Or.inr hne)
    refine ⟨?_, i3⟩
    rcases i1 with h | h
    · rw [h] at hpos
      omega
    · exact h

/-- Witness of C3: destination replies for TTLs 7, 5, 9 and 5 leave `final` at 5. -/
theorem final_only_decreases_witness :
    finalAfter [7, 5, 9, 5] ∈ [7, 5, 9, 5] ∧ ∀ t ∈ [7, 5, 9, 5], finalAfter [7, 5, 9, 5] ≤ t :=
  (final_only_decreases [7, 5, 9, 5] (by decide)).2.2.2.2 (by decide)

/-! ## Accounting of issued probes -/

/-- C4, as the code has it: a call of `send` that wrote its probe either passes
a hop to `Result.add`, or returns `context.Canceled`, or finds a final TTL below
its own TTL when the reply or timeout is handled and then returns nil without
adding a hop. -/
theorem written_probe_outcome (cfg : Config) (env : SendEnv) (ttl i : Int)
    (hw : (send cfg env ttl i).wrote = true) :
    (send cfg env ttl i).added = true ∨
    (send cfg env ttl i).cancelled = true ∨
    (env.final2 ≠ -1 ∧ ttl > env.final2 ∧
      (send cfg env ttl i).added = false ∧
      (send cfg env ttl i).ret = .returned none) := by
  revert hw
  unfold send sendRegistered sendAwait
  repeat' split
  all_goals simp_all [SendRun.wrote, SendRun.added, SendRun.cancelled]

/-- Witness of C4 (amended): the probe of TTL 2 answered by a router adds a hop. -/
theorem written_probe_outcome_witness :
    (send sampleConfig envRouterReply 2 0).added = true ∨
    (send sampleConfig envRouterReply 2 0).cancelled = true ∨
    (envRouterReply.final2 ≠ -1 ∧ 2 > envRouterReply.final2 ∧
      (send sampleConfig envRouterReply 2 0).added = false ∧
      (send sampleConfig envRouterReply 2 0).ret = .returned none) :=
  written_probe_outcome sampleConfig envRouterReply 2 0 (by decide)

/-- C4 fails as stated: the probe of TTL 5 is written, times out after `final`
became 3, and `send` returns nil without adding a hop and without a cancelled
context. -/
theorem written_probe_dropped :
    (send sampleConfig envTimeoutBeyondFinal 5 0).wrote = true ∧
    (send sampleConfig envTimeoutBeyondFinal 5 0).added = false ∧
    (send sampleConfig envTimeoutBeyondFinal 5 0).cancelled = false ∧
    (send sampleConfig envTimeoutBeyondFinal 5 0).ret = .returned none := by
  decide

/-! ## The in-flight registry -/

theorem lookup_delete_self (r : Registry) (k : Int) :
    Registry.lookup (Registry.delete r k) k = none := by
  induction r with
  | nil => rfl
  | cons e rest ih =>
    obtain ⟨j, c⟩ := e
    by_cases h : j = k
    · simpa [Registry.delete, List.filter_cons, h] using ih
    · simpa [Registry.delete, List.filter_cons, h, Registry.lookup] using ih

theorem lookup_delete_ne (r : Registry) (k j : Int) (hne : j ≠ k) :
    Registry.lookup (Registry.delete r k) j = Registry.lookup r j := by
  induction r with
  | nil => rfl
  | cons e rest ih =>
    obtain ⟨a, c⟩ := e
    have hkj : ¬ k = j := fun e => hne e.symm
    by_cases h : a = k
    · simpa [Registry.delete, List.filter_cons, h, Registry.lookup, hkj] using ih
    · by_cases h2 : a = j
      · simp [Registry.delete, List.filter_cons, Registry.lookup, h2, hne]
      · simpa [Registry.delete, List.filter_cons, h, Registry.lookup, h2] using ih

theorem lookup_insert_ne (r : Registry) (k j : Int) (c : Chan) (hne : j ≠ k) :
    Registry.lookup (Registry.insert r k c) j = Registry.lookup r j := by
  have hkj : k ≠ j := fun e => hne e.symm
  simp [Registry.insert, Registry.lookup, hkj, lookup_delete_ne r k j hne]

theorem registry_eq_nil (r : Registry) (h : ∀ k, Registry.lookup r k = none) : r = [] := by
  cases r with
  | nil => rfl
  | cons e rest =>
    obtain ⟨j, c⟩ := e
    have := h j
    simp [Registry.lookup] at this

theorem closed_tail (x : Effect) (l : List Effect) (h : Closed (x :: l)) : Closed l := by
  cases x <;> simp only [Closed] at h
  · exact h.2
  all_goals exact h

theorem closed_send (cfg : Config) (env : SendEnv) (ttl i : Int) :
    Closed (send cfg env ttl i).effects := by
  unfold send sendRegistered sendAwait
  repeat' split
  all_goals first
    | (simp [Closed]; done)
    | (by_cases hd : IP.Equal ‹IP› cfg.DestIP = true <;> simp [Closed, hd])

/-- Along any interleaving of closed action lists, a registry whose keys are all
still awaited by some list ends empty. -/
theorem interleaving_drains (ls : List (List Effect)) (tr : List Effect)
    (h : Interleaving ls tr) :
    ∀ s : Shared, (∀ l ∈ ls, Closed l) →
      (∀ k, Registry.lookup s.inflight k ≠ none → ∃ l ∈ ls, Effect.unregister k ∈ l) →
      (applyEffects s tr).inflight = [] := by
  induction h with
  | done ls hall =>
    intro s _ hcov
    apply registry_eq_nil
    intro k
    by_contra hk
    obtain ⟨l, hl, hmem⟩ := hcov k hk
    rw [hall l hl] at hmem
    cases hmem
  | step pre post x l out _ ih =>
    intro s hclosed hcov
    have hxl : Closed (x :: l) := hclosed (x :: l) (by simp)
    show (applyEffects (Effect.apply s x) out).inflight = []
    apply ih
    · intro l2 hl2
      rcases List.mem_append.mp hl2 with h1 | h1
      · exact hclosed l2 (by simp [h1])
      · rcases List.mem_cons.mp h1 with h2 | h2
        · rw [h2]
          exact closed_tail x l hxl
        · exact hclosed l2 (by simp [h2])
    · intro k hk
      -- a key that was present before the step and is not removed by it
      have keep : Registry.lookup s.inflight k ≠ none → x ≠ Effect.unregister k →
          ∃ l2 ∈ pre ++ l :: post, Effect.unregister k ∈ l2 := by
        intro hk0 hx
        obtain ⟨l2, hl2, hmem⟩ := hcov k hk0
        rcases List.mem_append.mp hl2 with h1 | h1
        · exact ⟨l2, by simp [h1], hmem⟩
        · rcases List.mem_cons.mp h1 with h2 | h2
          · rw [h2] at hmem
            rcases List.mem_cons.mp hmem with h3 | h3
            · exact absurd h3.symm hx
            · exact ⟨l, by simp, h3⟩
          · exact ⟨l2, by simp [h2], hmem⟩
      cases x with
      | register k0 =>
        by_cases hkk : k = k0
        · have hc : Effect.unregister k0 ∈ l := by
            simp only [Closed] at hxl
            exact hxl.1
          exact ⟨l, by simp, hkk ▸ hc⟩
        · have e : Registry.lookup (Effect.apply s (Effect.register k0)).inflight k
              = Registry.lookup s.inflight k := lookup_insert_ne s.inflight k0 k _ hkk
          rw [e] at hk
          exact keep hk (by simp)
      | unregister k0 =>
        by_cases hkk : k = k0
        · have e : Registry.lookup (Effect.apply s (Effect.unregister k0)).inflight k = none := by
            rw [hkk]
            exact lookup_delete_self s.inflight k0
          exact absurd e hk
        · have e : Registry.lookup (Effect.apply s (Effect.unregister k0)).inflight k
              = Registry.lookup s.inflight k := lookup_delete_ne s.inflight k0 k hkk
          rw [e] at hk
          exact keep hk (by simpa using fun h => hkk h.symm)
      | write a b => exact keep hk (by simp)
      | cas a => exact keep hk (by simp)
      | add a b c d => exact keep hk (by simp)

theorem send_registers_own_key (cfg : Config) (env : SendEnv) (ttl i k : Int)
    (h : Effect.register k ∈ (send cfg env ttl i).effects) : k = encodeSeq ttl i := by
  revert h
  unfold send sendRegistered sendAwait
  repeat' split
  all_goals simp

theorem send_removes_own_key (cfg : Config) (env : SendEnv) (ttl i : Int) (s : Shared)
    (h : Effect.register (encodeSeq ttl i) ∈ (send cfg env ttl i).effects) :
    Registry.lookup (applyEffects s (send cfg env ttl i).effects).inflight (encodeSeq ttl i)
      = none := by
  revert h
  unfold send sendRegistered sendAwait
  repeat' split
  all_goals simp [applyEffects, Effect.apply, lookup_delete_self]

theorem send_keeps_other_keys (cfg : Config) (env : SendEnv) (ttl i : Int) (s : Shared)
    (k : Int) (hk : k ≠ encodeSeq ttl i) :
    Registry.lookup (applyEffects s (send cfg env ttl i).effects).inflight k
      = Registry.lookup s.inflight k := by
  have e1 : ∀ r c, Registry.lookup (Registry.delete (Registry.insert r (encodeSeq ttl i) c)
      (encodeSeq ttl i)) k = Registry.lookup r k := by
    intro r c
    rw [lookup_delete_ne _ _ _ hk, lookup_insert_ne _ _ _ _ hk]
  unfold send sendRegistered sendAwait
  repeat' split
  all_goals first
    | (simp [applyEffects, Effect.apply, e1]; done)
    | (by_cases hd : IP.Equal ‹IP› cfg.DestIP = true <;>
        simp [applyEffects, Effect.apply, e1, hd])

theorem send_fast_path (cfg : Config) (env : SendEnv) (ttl i : Int)
    (h : ttlComp env.hops1 cfg.NumMeasurements ttl = some true ∨
      (env.final1 ≠ -1 ∧ ttl > env.final1) ∨
      ttlComp env.hops2 cfg.NumMeasurements ttl = some true) :
    (send cfg env ttl i).effects = [] := by
  revert h
  unfold send
  repeat' split
  all_goals simp_all

theorem send_slow_path (cfg : Config) (env : SendEnv) (ttl i : Int)
    (h1 : ttlComp env.hops1 cfg.NumMeasurements ttl = some false)
    (h2 : env.acquireErr = none) (h3 : ¬ (env.final1 ≠ -1 ∧ ttl > env.final1))
    (h4 : ttlComp env.hops2 cfg.NumMeasurements ttl = some false) :
    Effect.register (encodeSeq ttl i) ∈ (send cfg env ttl i).effects := by
  unfold send
  rw [h1, h2]
  simp only [h3, if_false, h4]
  simp

/-- C5: a call of `send` registers no key other than its own `seq`; when it
registers it (every path that passes the completion and final-TTL checks: reply,
timeout, cancellation, serialisation, SetHopLimit or write error) the key is
absent once the call is over; a call that returns on a fast path performs no
action at all; entries under other keys are unchanged; and after any
interleaving of the actions of any number of calls, started on an empty
registry, the registry is empty. -/
theorem no_inflight_leak :
    (∀ (cfg : Config) (env : SendEnv) (ttl i : Int) (s : Shared),
      (∀ k, Effect.register k ∈ (send cfg env ttl i).effects → k = encodeSeq ttl i) ∧
      (ttlComp env.hops1 cfg.NumMeasurements ttl = some false → env.acquireErr = none →
        ¬ (env.final1 ≠ -1 ∧ ttl > env.final1) →
        ttlComp env.hops2 cfg.NumMeasurements ttl = some false →
        Effect.register (encodeSeq ttl i) ∈ (send cfg env ttl i).effects) ∧
      (Effect.register (encodeSeq ttl i) ∈ (send cfg env ttl i).effects →
        Registry.lookup (applyEffects s (send cfg env ttl i).effects).inflight
          (encodeSeq ttl i) = none) ∧
      (ttlComp env.hops1 cfg.NumMeasurements ttl = some true ∨
          (env.final1 ≠ -1 ∧ ttl > env.final1) ∨
          ttlComp env.hops2 cfg.NumMeasurements ttl = some true →
        (send cfg env ttl i).effects = []) ∧
      (∀ k, k ≠ encodeSeq ttl i →
        Registry.lookup (applyEffects s (send cfg env ttl i).effects).inflight k
          = Registry.lookup s.inflight k)) ∧
    (∀ (calls : List (Config × SendEnv × Int × Int)) (tr : List Effect) (f : Int),
      Interleaving (calls.map (fun c => (send c.1 c.2.1 c.2.2.1 c.2.2.2).effects)) tr →
      (applyEffects ⟨[], f⟩ tr).inflight = []) := by
  refine ⟨fun cfg env ttl i s => ⟨?_, ?_, ?_, ?_, ?_⟩, ?_⟩
  · exact fun k => send_registers_own_key cfg env ttl i k
  · exact send_slow_path cfg env ttl i
  · exact send_removes_own_key cfg env ttl i s
  · exact send_fast_path cfg env ttl i
  · exact fun k => send_keeps_other_keys cfg env ttl i s k
  · intro calls tr f h
    apply interleaving_drains _ tr h
    · intro l hl
      obtain ⟨c, _, rfl⟩ := List.mem_map.mp hl
      exact closed_send _ _ _ _
    · intro k hk
      exact absurd rfl hk

/-- Witness of C5: two calls that fail to serialise their packet, with their
registry actions interleaved. -/
theorem no_inflight_leak_witness :
    (applyEffects ⟨[], -1⟩ [Effect.register 33554432, Effect.register 50331649,
      Effect.unregister 33554432, Effect.unregister 50331649]).inflight = [] :=
  no_inflight_leak.2
    [(sampleConfig, envSerializeError, 2, 0), (sampleConfig, envSerializeError, 3, 1)] _ (-1)
    (by
      have e : [(sampleConfig, envSerializeError, (2 : Int), (0 : Int)),
          (sampleConfig, envSerializeError, 3, 1)].map
            (fun c => (send c.1 c.2.1 c.2.2.1 c.2.2.2).effects)
          = [[Effect.register 33554432, Effect.unregister 33554432],
             [Effect.register 50331649, Effect.unregister 50331649]] := by decide
      rw [e]
      exact Interleaving.step [] [[Effect.register 50331649, Effect.unregister 50331649]]
        (Effect.register 33554432) [Effect.unregister 33554432] _
        (Interleaving.step [[Effect.unregister 33554432]] []
          (Effect.register 50331649) [Effect.unregister 50331649] _
          (Interleaving.step [] [[Effect.unregister 50331649]]
            (Effect.unregister 33554432) [] _
            (Interleaving.step [[]] [] (Effect.unregister 50331649) [] _
              (Interleaving.done _ (by decide))))))

/-! ## Duplicate replies -/

theorem trySendOn_full (r : Registry) (k : Int) (h h0 : Hop)
    (hl : Registry.lookup r k = some (.buffered (some h0))) :
    Registry.trySendOn r k h = r := by
  induction r with
  | nil => rfl
  | cons e rest ih =>
    obtain ⟨j, c⟩ := e
    by_cases hj : j = k
    · simp only [Registry.lookup, hj, if_true, Option.some.injEq] at hl
      simp [Registry.trySendOn, hj, hl, Chan.trySend]
    · simp only [Registry.lookup, hj, if_false] at hl
      simp [Registry.trySendOn, hj, ih hl]

theorem dispatch_full (r : Registry) (k : Int) (h h0 : Hop)
    (hl : Registry.lookup r k = some (.buffered (some h0))) : dispatch r k h = r := by
  unfold dispatch
  rw [hl]
  exact trySendOn_full r k h h0 hl

theorem dispatch_absent (r : Registry) (k : Int) (h : Hop)
    (hl : Registry.lookup r k = none) : dispatch r k h = r := by
  unfold dispatch
  rw [hl]

theorem dispatch_fresh (r : Registry) (k : Int) (h : Hop) :
    dispatch (Registry.insert r k (.buffered none)) k h
      = Registry.insert r k (.buffered (some h)) := by
  simp [dispatch, Registry.insert, Registry.lookup, Registry.trySendOn, Chan.trySend]

theorem dispatch_repeat (r : Registry) (k : Int) (h1 : Hop) (hs : List Hop) :
    hs.foldl (fun r h => dispatch r k h) (Registry.insert r k (.buffered (some h1)))
      = Registry.insert r k (.buffered (some h1)) := by
  induction hs with
  | nil => rfl
  | cons h rest ih =>
    have e : dispatch (Registry.insert r k (.buffered (some h1))) k h
        = Registry.insert r k (.buffered (some h1)) :=
      dispatch_full _ k h h1 (by simp [Registry.insert, Registry.lookup])
    simp only [List.foldl_cons, e, ih]

theorem send_addCount_le_one (cfg : Config) (env : SendEnv) (ttl i : Int) :
    (send cfg env ttl i).addCount ≤ 1 := by
  unfold send sendRegistered sendAwait SendRun.addCount
  repeat' split
  all_goals simp [List.countP_cons, List.countP_nil]

/-- C6: a reply dispatched by either correlator for a key whose capacity-1
channel already holds a hop leaves the registry as it is (the channel keeps the
first hop), and a reply for a key that is not registered changes nothing; after
a registration, of all replies dispatched for the key only the first is in the
channel; and a call of `send` passes at most one hop to `Result.add`. -/
theorem duplicate_reply_dropped :
    (∀ (r : Registry) (seq : Int) (h h0 : Hop),
      Registry.lookup r seq = some (.buffered (some h0)) → dispatch r seq h = r) ∧
    (∀ (r : Registry) (seq : Int) (h : Hop),
      Registry.lookup r seq = none → dispatch r seq h = r) ∧
    (∀ (pktSize ack ackType : Int) (peer : Option IP) (r : Registry),
      (Registry.lookup r (onTCPSeq pktSize ack ackType) = none ∨
        ∃ h0, Registry.lookup r (onTCPSeq pktSize ack ackType) = some (.buffered (some h0))) →
      onTCP pktSize r ack peer ackType = r) ∧
    (∀ (extractMPLS : ReceivedMessage → List String)
      (getICMPResponsePayload : List Nat → Option (List Nat))
      (getTCPSeq : List Nat → Option Int)
      (r : Registry) (msg : ReceivedMessage) (data : List Nat),
      (∀ header seq, getICMPResponsePayload data = some header → getTCPSeq header = some seq →
        Registry.lookup r seq = none ∨
        ∃ h0, Registry.lookup r seq = some (.buffered (some h0))) →
      handleICMPMessage extractMPLS getICMPResponsePayload getTCPSeq r msg data = r) ∧
    (∀ (r : Registry) (seq : Int) (h1 : Hop) (hs : List Hop),
      (h1 :: hs).foldl (fun r h => dispatch r seq h) (Registry.insert r seq (.buffered none))
        = Registry.insert r seq (.buffered (some h1))) ∧
    (∀ (cfg : Config) (env : SendEnv) (ttl i : Int), (send cfg env ttl i).addCount ≤ 1) := by
  refine ⟨dispatch_full, dispatch_absent, ?_, ?_, ?_, send_addCount_le_one⟩
  · intro pktSize ack ackType peer r h
    unfold onTCP
    rcases h with h | ⟨h0, h⟩
    · exact dispatch_absent _ _ _ h
    · exact dispatch_full _ _ _ h0 h
  · intro f g k r msg data h
    cases hg : g data with
    | none => simp only [handleICMPMessage, hg]
    | some header =>
      cases hk : k header with
      | none => simp only [handleICMPMessage, hg, hk]
      | some seq =>
        simp only [handleICMPMessage, hg, hk]
        rcases h header seq hg hk with h1 | ⟨h0, h1⟩
        · exact dispatch_absent _ _ _ h1
        · exact dispatch_full _ _ _ h0 h1
  · intro r seq h1 hs
    rw [List.foldl_cons, dispatch_fresh]
    exact dispatch_repeat r seq h1 hs

/-- Witness of C6: a second reply for a key whose channel holds a hop. -/
theorem duplicate_reply_dropped_witness :
    dispatch [(33554432, .buffered (some ⟨true, none, 0, 0, none, []⟩))] 33554432
        ⟨true, some sampleConfig.DestIP, 0, 0, none, []⟩
      = [(33554432, .buffered (some ⟨true, none, 0, 0, none, []⟩))] :=
  duplicate_reply_dropped.1 _ 33554432 _ ⟨true, none, 0, 0, none, []⟩ (by decide)

/-! ## TCP reply classification -/

/-- C7: for a TCP segment that passed the peer-address and source-port filters,
`TCPSpec.ListenTCP` calls `onTCP` exactly when ACK is set together with SYN or
RST; the sequence handed over is `int(ack) - 1 - PktSize` when RST is set (also
with SYN) and `int(ack) - 1` when only SYN is set, which for a 32-bit ack are
the plain differences whenever they fit Go's int; every other combination is
skipped; the Windows listener does the same for a captured packet whose IP
layer decodes. -/
theorem tcp_reply_classification (s : TCPSpec) (msg : TCPMessage) (ip : IP) (tl : TCPLayer)
    (herr : msg.err = false) (hpeer : msg.peerIP = some ip) (heq : ip.Equal s.DstIP = true)
    (htcp : msg.tcp = some tl) (hport : tl.SrcPort = s.DstPort) :
    ((s.ListenTCP msg).isSome = true ↔ tl.ACK = true ∧ (tl.SYN = true ∨ tl.RST = true)) ∧
    (tl.ACK = true → tl.RST = true →
      s.ListenTCP msg = some ⟨tl.DstPort, wrapInt64 (wrapInt64 (tl.Ack - 1) - s.PktSize)⟩) ∧
    (tl.ACK = true → tl.SYN = true → tl.RST = false →
      s.ListenTCP msg = some ⟨tl.DstPort, wrapInt64 (tl.Ack - 1)⟩) ∧
    (¬ (tl.ACK = true ∧ (tl.SYN = true ∨ tl.RST = true)) → s.ListenTCP msg = none) ∧
    (0 ≤ tl.Ack → tl.Ack < 4294967296 →
      wrapInt64 (tl.Ack - 1) = tl.Ack - 1 ∧
      (-9223372036854775808 ≤ tl.Ack - 1 - s.PktSize →
        tl.Ack - 1 - s.PktSize < 9223372036854775808 →
        wrapInt64 (wrapInt64 (tl.Ack - 1) - s.PktSize) = tl.Ack - 1 - s.PktSize)) ∧
    (∀ pkt : PcapTCPPacket, pkt.network = true → pkt.tcp = some tl →
      (if s.IPVersion = 4 then pkt.ip4 else pkt.ip6) = true →
      s.ListenTCPWindows pkt = s.ListenTCP msg) := by
  have hL : s.ListenTCP msg = (s.recoverSeq tl).map (fun q => ⟨tl.DstPort, q⟩) := by
    simp only [TCPSpec.ListenTCP, herr, hpeer, heq, htcp, hport]
    cases s.recoverSeq tl <;> simp
  refine ⟨?_, ?_, ?_, ?_, ?_, ?_⟩
  · rw [hL]
    unfold TCPSpec.recoverSeq
    cases tl.ACK <;> cases tl.SYN <;> cases tl.RST <;> simp
  · intro hA hR
    rw [hL]
    simp [TCPSpec.recoverSeq, hA, hR]
  · intro hA hS hR
    rw [hL]
    simp [TCPSpec.recoverSeq, hA, hS, hR]
  · intro h
    rw [hL]
    unfold TCPSpec.recoverSeq
    revert h
    cases tl.ACK <;> cases tl.SYN <;> cases tl.RST <;> simp
  · intro h0 h1
    have e : wrapInt64 (tl.Ack - 1) = tl.Ack - 1 := wrapInt64_of_range _ (by omega) (by omega)
    refine ⟨e, fun h2 h3 => ?_⟩
    rw [e]
    exact wrapInt64_of_range _ h2 h3
  · intro pkt hn ht hip
    rw [hL]
    simp only [TCPSpec.ListenTCPWindows, hn, ht, hport]
    cases s.recoverSeq tl with
    | none => simp
    | some q =>
      by_cases h4 : s.IPVersion = 4
      · simp only [h4, if_true] at hip
        simp [h4, hip]
      · simp only [h4, if_false] at hip
        simp [h4, hip]

/-- Witness of C7: an RST+ACK from the target's port 443 acknowledging 50331666
with 16 payload bytes gives back the key 50331649 = (3 << 24) | 1. -/
theorem tcp_reply_classification_witness :
    sampleSpec.ListenTCP ⟨false, some sampleConfig.DestIP, some sampleRstAck⟩
      = some ⟨50000, 50331649⟩ :=
  ((tcp_reply_classification sampleSpec ⟨false, some sampleConfig.DestIP, some sampleRstAck⟩
    sampleConfig.DestIP sampleRstAck rfl rfl (by decide) rfl (by decide)).2.1 rfl rfl).trans
    (by decide)

/-! ## ICMPv6 message types -/

/-- C8, the code at the failing input: a Packet-Too-Big message whose quoted
payload would pass the payload filter is dropped by `listenICMP`, while the same
payload in a Time-Exceeded message is handled and the Windows capture path keeps
type 2. -/
theorem packet_too_big_dropped :
    listenICMP sampleConfig.DestIP sampleReceived
        (some ⟨ICMPTypePacketTooBig, .PacketTooBig (some sampleQuoted)⟩) = .dropped ∧
    filterQuoted sampleConfig.DestIP sampleQuoted = .handled sampleQuoted ∧
    listenICMP sampleConfig.DestIP sampleReceived
        (some ⟨ICMPTypeTimeExceeded, .TimeExceeded (some sampleQuoted)⟩)
      = .handled sampleQuoted ∧
    pcapAcceptsType6 ICMPTypePacketTooBig = true := by
  decide

/-! ## The quoted-payload filter -/

theorem IP.Equal_same_length (a b : IP) (h : a.length = b.length) :
    IP.Equal a b = true ↔ a = b := by
  simp [IP.Equal, h]

theorem inner_destination_length (data : List Nat) (h : 40 ≤ data.length) :
    ((data.take 40).drop 24).length = 16 := by
  simp only [List.length_drop, List.length_take]
  omega

theorem filterQuoted_long (destIP : IP) (data : List Nat) (h : 40 ≤ data.length) :
    filterQuoted destIP data =
      if data.headD 0 >>> 4 ≠ 6 then .dropped
      else if IP.Equal ((data.take 40).drop 24) destIP
          || IP.Equal ((data.take 40).drop 24) IPv6zero then .handled data
      else .dropped := by
  cases data with
  | nil => simp at h
  | cons b rest =>
    have h1 : ¬ (b :: rest).length < 40 := by omega
    have h2 : (24 ≤ 40 ∧ 40 ≤ (b :: rest).length) := ⟨by omega, h⟩
    simp only [filterQuoted, h1, if_false, List.get?_cons_zero, sliceOf, h2, and_self, if_true,
      List.headD_cons]

/-- C9: `listenICMP` hands a quoted payload to `handleICMPMessage` exactly when
it has at least 40 bytes, the high nibble of byte 0 is 6 and the inner
destination `data[24:40]` equals the target (as `net.IP.Equal`, which for a
16-byte target is equality of the bytes) or is the unspecified address; in every
other case it drops the message, and neither the read of byte 0 nor the slice
24..40 goes out of range. -/
theorem quoted_payload_filter (destIP : IP) (data : List Nat) :
    filterQuoted destIP data ≠ .panicked ∧
    (filterQuoted destIP data = .handled data ↔
      40 ≤ data.length ∧ data.headD 0 >>> 4 = 6 ∧
      (IP.Equal ((data.take 40).drop 24) destIP = true ∨
        (data.take 40).drop 24 = IPv6zero)) ∧
    (filterQuoted destIP data ≠ .handled data → filterQuoted destIP data = .dropped) ∧
    (destIP.length = 16 → 40 ≤ data.length →
      (IP.Equal ((data.take 40).drop 24) destIP = true ↔ (data.take 40).drop 24 = destIP)) ∧
    (∀ (msg : ReceivedMessage) (n : Int) (rm : ICMPMessage),
      msg.N = some n → quotedData rm = some data →
      listenICMP destIP msg (some rm) = filterQuoted destIP data) := by
  have hz : 40 ≤ data.length →
      (IP.Equal ((data.take 40).drop 24) IPv6zero = true ↔ (data.take 40).drop 24 = IPv6zero) :=
    fun h => IP.Equal_same_length _ _ (by
      rw [inner_destination_length data h]
      rfl)
  by_cases hlen : 40 ≤ data.length
  · have hf := filterQuoted_long destIP data hlen
    refine ⟨?_, ?_, ?_, ?_, ?_⟩
    · rw [hf]
      split
      · simp
      · split <;> simp
    · rw [hf]
      by_cases hv : data.headD 0 >>> 4 = 6
      · rw [if_neg (fun h => h hv)]
        by_cases hd : (IP.Equal ((data.take 40).drop 24) destIP
            || IP.Equal ((data.take 40).drop 24) IPv6zero) = true
        · rw [if_pos hd]
          refine ⟨fun _ => ⟨hlen, hv, ?_⟩, fun _ => rfl⟩
          rcases Bool.or_eq_true_iff.mp hd with h | h
          · exact Or.inl h
          · exact Or.inr ((hz hlen).mp h)
        · rw [if_neg hd]
          refine ⟨fun h => (by cases h), fun h => ?_⟩
          exfalso
          apply hd
          rcases h.2.2 with h | h
          · exact Bool.or_eq_true_iff.mpr (Or.inl h)
          · exact Bool.or_eq_true_iff.mpr (Or.inr ((hz hlen).mpr h))
      · rw [if_pos hv]
        exact ⟨fun h => (by cases h), fun h => absurd h.2.1 hv⟩
    · rw [hf]
      split
      · simp
      · split <;> simp
    · intro h16 _
      exact IP.Equal_same_length _ _ (by rw [inner_destination_length data hlen, h16])
    · intro msg n rm hn hq
      simp [listenICMP, hn, hq]
  · have hlt : data.length < 40 := by omega
    have hf : filterQuoted destIP data = .dropped := by
      simp [filterQuoted, hlt]
    refine ⟨?_, ?_, ?_, ?_, ?_⟩
    · rw [hf]
      simp
    · rw [hf]
      constructor
      · intro h
        cases h
      · intro h
        exact absurd h.1 hlen
    · intro _
      exact hf
    · intro _ h
      exact absurd h hlen
    · intro msg n rm hn hq
      simp [listenICMP, hn, hq]

/-! ## The bound passed to `reduce` -/

/-- C10: at the end of `Execute` the result is reduced with bound = final when a
final TTL has been established (final != -1) and with bound = MaxHops
otherwise. -/
theorem reduce_bound (final : Int) (cfg : Config) :
    (final ≠ -1 → reduceBound final cfg = final) ∧
    (final = -1 → reduceBound final cfg = cfg.MaxHops) := by
  unfold reduceBound
  constructor
  · intro h
    simp [h]
  · intro h
    simp [h]

/-! ## The result after a cancellation -/

/-- C11, as the code has it: with `Hops` holding the `MaxHops` slots allocated
by `Execute`, a run that ends without a final TTL returns all of them, whatever
the number of completed TTLs; a final TTL f with 0 <= f <= MaxHops leaves
exactly the first f slots. -/
theorem cancelled_result_slots (cfg : Config) (hops : List (List Hop)) (final : Int)
    (cause : Cause) (hlen : (hops.length : Int) = cfg.MaxHops) :
    (final = -1 → (executeFinish cfg hops final cause).1 = hops) ∧
    (0 ≤ final → final ≤ cfg.MaxHops →
      (executeFinish cfg hops final cause).1 = hops.take final.toNat ∧
      ((executeFinish cfg hops final cause).1.length : Int) = final) := by
  have h1 : ∀ c : Cause, (executeFinish cfg hops final c).1
      = hops.take (reduceBound final cfg).toNat := by
    intro c
    unfold executeFinish Result.reduce
    split <;> rfl
  constructor
  · intro hf
    rw [h1, hf]
    have e : (reduceBound (-1) cfg).toNat = hops.length := by
      simp only [reduceBound, if_true]
      omega
    rw [e, List.take_length]
  · intro h0 hle
    have e : reduceBound final cfg = final := by
      unfold reduceBound
      have : final ≠ -1 := by omega
      simp [this]
    rw [h1, e]
    refine ⟨rfl, ?_⟩
    rw [List.length_take]
    omega

/-- Witness of C11 (amended): an interrupted run of `sampleConfig` with two
complete TTLs and no final TTL returns its 30 slots unchanged. -/
theorem cancelled_result_slots_witness :
    (executeFinish sampleConfig hopsAfterTwo (-1) (.plain .contextCanceled)).1
      = hopsAfterTwo :=
  (cancelled_result_slots sampleConfig hopsAfterTwo (-1) (.plain .contextCanceled)
    (by decide)).1 rfl

/-- C11 fails as stated: in a run with MaxHops = 30 that is interrupted when
exactly the slots of TTL 1 and TTL 2 are complete and no final TTL is known, the
result returned by `Execute` has 30 slots, not 2. -/
theorem cancelled_result_keeps_max_hops :
    ttlComp hopsAfterTwo sampleConfig.NumMeasurements 1 = some true ∧
    ttlComp hopsAfterTwo sampleConfig.NumMeasurements 2 = some true ∧
    ttlComp hopsAfterTwo sampleConfig.NumMeasurements 3 = some false ∧
    (executeFinish sampleConfig hopsAfterTwo (-1) (.plain .contextCanceled)).1.length = 30 ∧
    (executeFinish sampleConfig hopsAfterTwo (-1) (.plain .contextCanceled)).1.length ≠ 2 := by
  decide

/-! ## The error returned by `Execute` -/

theorem errorsIs_unwrapped (cause : Cause) (h : ∀ msg inner, cause ≠ .wrapped msg inner) :
    errorsIs cause .errNaturalDone = true ↔ cause = .errNaturalDone := by
  cases cause with
  | errNaturalDone => simp [errorsIs]
  | plain e => simp [errorsIs]
  | wrapped msg inner => exact absurd rfl (h msg inner)

/-- C12: once the run has started `Execute` returns the reduced result in every
case; the error is nil exactly when `errors.Is(cause, errNaturalDone)` holds,
which for a cause that wraps no other error means that the cause is
`errNaturalDone`; every other cause (an interrupt, an unexpected error) is
returned as it is. -/
theorem execute_terminal_error (cfg : Config) (hops : List (List Hop)) (final : Int)
    (cause : Cause) :
    (executeFinish cfg hops final cause).1 = Result.reduce hops (reduceBound final cfg) ∧
    ((executeFinish cfg hops final cause).2 = none ↔
      errorsIs cause .errNaturalDone = true) ∧
    ((∀ msg inner, cause ≠ .wrapped msg inner) →
      ((executeFinish cfg hops final cause).2 = none ↔ cause = .errNaturalDone)) ∧
    (errorsIs cause .errNaturalDone = false →
      (executeFinish cfg hops final cause).2 = some cause) ∧
    (∀ e : GoError, cause = .plain e → (executeFinish cfg hops final cause).2 = some cause) := by
  have h2 : (executeFinish cfg hops final cause).2
      = if errorsIs cause .errNaturalDone = true then none else some cause := by
    unfold executeFinish
    cases errorsIs cause .errNaturalDone <;> simp
  have h1 : (executeFinish cfg hops final cause).1
      = Result.reduce hops (reduceBound final cfg) := by
    unfold executeFinish
    split <;> rfl
  have hiff : (executeFinish cfg hops final cause).2 = none ↔
      errorsIs cause .errNaturalDone = true := by
    rw [h2]
    cases errorsIs cause .errNaturalDone <;> simp
  refine ⟨h1, hiff, ?_, ?_, ?_⟩
  · intro hw
    rw [hiff]
    exact errorsIs_unwrapped cause hw
  · intro hf
    rw [h2, hf]
    simp
  · intro e he
    rw [h2, he]
    simp [errorsIs]

/-- Witness of C12: an interrupt (`context.Canceled`) is returned as the error,
natural completion gives nil. -/
theorem execute_terminal_error_witness :
    (executeFinish sampleConfig hopsAfterTwo (-1) (.plain .contextCanceled)).2
      = some (.plain .contextCanceled) ∧
    ((executeFinish sampleConfig hopsAfterTwo 2 .errNaturalDone).2 = none ↔
      Cause.errNaturalDone = Cause.errNaturalDone) :=
  ⟨(execute_terminal_error sampleConfig hopsAfterTwo (-1) (.plain .contextCanceled)).2.2.2.2
      .contextCanceled rfl,
    (execute_terminal_error sampleConfig hopsAfterTwo 2 .errNaturalDone).2.2.1
      (fun _ _ h => by cases h)⟩

/-! ## The argument of the realtime printer -/

/-- C13, as the code has it: when `PrintFunc`, with last-printed TTL `ttl`, finds
the slot of TTL `ttl + 1` complete and a realtime printer is configured, it
calls `RealtimePrinter(result, ttl)`, once, after the optional `AsyncPrinter`
call, and then advances the last-printed TTL to `ttl + 1`. -/
theorem realtime_printer_argument (cfg : Config) (hasAsync : Bool) (hops : List (List Hop))
    (final ttl : Int) (hr0 : -9223372036854775808 ≤ ttl) (hr1 : ttl < 9223372036854775807)
    (hcomp : ttlComp hops cfg.NumMeasurements (ttl + 1) = some true) :
    (printFuncRound cfg hasAsync true hops final ttl).calls
      = (if hasAsync then [PrinterCall.AsyncPrinter] else []) ++
          [PrinterCall.RealtimePrinter ttl] ∧
    (printFuncRound cfg hasAsync true hops final ttl).ttl = ttl + 1 := by
  have e : wrapInt64 (ttl + 1) = ttl + 1 := wrapInt64_of_range _ (by omega) (by omega)
  unfold printFuncRound
  rw [e, hcomp]
  simp only [if_true]
  split <;> exact ⟨rfl, rfl⟩

/-- Witness of C13 (amended): with TTL 1 complete and last-printed TTL 0 the
printer is called with 0 and the last-printed TTL becomes 1. -/
theorem realtime_printer_argument_witness :
    (printFuncRound sampleConfig false true hopsAfterTwo (-1) 0).calls
      = (if false then [PrinterCall.AsyncPrinter] else []) ++
          [PrinterCall.RealtimePrinter 0] ∧
    (printFuncRound sampleConfig false true hopsAfterTwo (-1) 0).ttl = 0 + 1 :=
  realtime_printer_argument sampleConfig false hopsAfterTwo (-1) 0 (by decide) (by decide)
    (by decide)

/-- C13 fails as stated: with BeginHop = 1 the last-printed TTL starts at 0; when
the slot of TTL 1 is complete the realtime printer is called with 0, not with 1,
and the last-printed TTL becomes 1. -/
theorem realtime_printer_gets_index :
    printFuncInit sampleConfig = 0 ∧
    ttlComp hopsAfterTwo sampleConfig.NumMeasurements (0 + 1) = some true ∧
    (printFuncRound sampleConfig false true hopsAfterTwo (-1) 0).calls
      = [PrinterCall.RealtimePrinter 0] ∧
    PrinterCall.RealtimePrinter (0 + 1) ∉
      (printFuncRound sampleConfig false true hopsAfterTwo (-1) 0).calls ∧
    (printFuncRound sampleConfig false true hopsAfterTwo (-1) 0).ttl = 1 := by
  decide

/-! ## The number of TTL groups -/

theorem fanOutLoop_length (cfg : Config) (hmax : cfg.MaxHops < 9223372036854775807)
    (obs : List TickObs) :
    ∀ ttl : Int, -9223372036854775808 ≤ ttl →
      (fanOutLoop cfg ttl obs).length ≤ (cfg.MaxHops - ttl + 1).toNat := by
  induction obs with
  | nil =>
    intro ttl _
    simp [fanOutLoop]
  | cons o rest ih =>
    intro ttl hlo
    unfold fanOutLoop
    by_cases hle : ttl ≤ cfg.MaxHops
    · rw [if_pos hle]
      split
      · simp
      · split
        · simp
        · have e : wrapInt64 (ttl + 1) = ttl + 1 :=
            wrapInt64_of_range _ (by omega) (by omega)
          rw [e, List.length_cons]
          have := ih (ttl + 1) (by omega)
          omega
    · rw [if_neg hle]
      simp

/-- C14, as the code has it: with `BeginHop` and `MaxHops` Go ints below the
largest one, the number N of TTL groups launched by the fan-out driver is at
most MaxHops - BeginHop + 1 when BeginHop <= MaxHops; when BeginHop > MaxHops
the group of `BeginHop` is still launched and N = 1. -/
theorem fan_out_bound (cfg : Config) (obs : List TickObs)
    (hb0 : -9223372036854775808 ≤ cfg.BeginHop) (hb1 : cfg.BeginHop < 9223372036854775807)
    (hmax : cfg.MaxHops < 9223372036854775807) :
    (cfg.BeginHop ≤ cfg.MaxHops →
      ((fanOut cfg obs).length : Int) ≤ cfg.MaxHops - cfg.BeginHop + 1) ∧
    (cfg.BeginHop > cfg.MaxHops → fanOut cfg obs = [cfg.BeginHop]) ∧
    1 ≤ (fanOut cfg obs).length := by
  have e : wrapInt64 (cfg.BeginHop + 1) = cfg.BeginHop + 1 :=
    wrapInt64_of_range _ (by omega) (by omega)
  have hl := fanOutLoop_length cfg hmax obs (cfg.BeginHop + 1) (by omega)
  refine ⟨?_, ?_, ?_⟩
  · intro hle
    unfold fanOut
    rw [e, List.length_cons]
    omega
  · intro hgt
    unfold fanOut
    rw [e]
    have h0 : (fanOutLoop cfg (cfg.BeginHop + 1) obs).length = 0 := by omega
    rw [List.length_eq_zero.mp h0]
  · unfold fanOut
    simp

/-- Witness of C14 (amended): the default run (TTL 1 to 30) with three ticks,
the destination answering at TTL 3 before the third. -/
theorem fan_out_bound_witness :
    ((fanOut sampleConfig [⟨false, -1⟩, ⟨false, -1⟩, ⟨false, 3⟩]).length : Int)
      ≤ sampleConfig.MaxHops - sampleConfig.BeginHop + 1 :=
  (fan_out_bound sampleConfig [⟨false, -1⟩, ⟨false, -1⟩, ⟨false, 3⟩]
    (by decide) (by decide) (by decide)).1 (by decide)

/-- C14 fails as stated: with BeginHop = 5 and MaxHops = 3 the driver launches
the group of TTL 5, so N = 1, above MaxHops - BeginHop + 1 = -1. -/
theorem fan_out_first_above_max :
    fanOut configFirstAboveMax [] = [5] ∧
    fanOut configFirstAboveMax [⟨false, -1⟩] = [5] ∧
    ¬ (((fanOut configFirstAboveMax []).length : Int)
      ≤ configFirstAboveMax.MaxHops - configFirstAboveMax.BeginHop + 1) := by
  decide

/-! ## The attempts of one TTL -/

theorem launchLoop_shape (cfg : Config) (ttl : Int)
    (hm : cfg.MaxAttempts < 9223372036854775808) (obs : List LaunchObs) :
    ∀ k : Nat, ∃ n : Nat,
      launchLoop cfg ttl (k : Int) obs = (List.range' k n).map Int.ofNat ∧
      (n = 0 ∨ ((k + n : Nat) : Int) ≤ cfg.MaxAttempts) := by
  induction obs with
  | nil =>
    intro k
    exact ⟨0, by simp [launchLoop], Or.inl rfl⟩
  | cons o rest ih =>
    intro k
    unfold launchLoop
    by_cases hlt : (k : Int) < cfg.MaxAttempts
    · rw [if_pos hlt]
      cases hc : ttlComp o.hops cfg.NumMeasurements ttl with
      | none => exact ⟨0, by simp, Or.inl rfl⟩
      | some b =>
        cases b with
        | true => exact ⟨0, by simp, Or.inl rfl⟩
        | false =>
          by_cases he : o.ctxErr = true
          · exact ⟨0, by simp [he], Or.inl rfl⟩
          · by_cases hd : o.ctxDone = true
            · refine ⟨1, by simp [he, hd], Or.inr ?_⟩
              push_cast
              omega
            · have e : wrapInt64 ((k : Int) + 1) = ((k + 1 : Nat) : Int) := by
                rw [wrapInt64_of_range _ (by omega) (by omega)]
                push_cast
                rfl
              obtain ⟨n, hn, hb⟩ := ih (k + 1)
              refine ⟨n + 1, ?_, Or.inr ?_⟩
              · simp only [he, hd, Bool.false_eq_true, if_false, e, hn, List.range'_succ,
                  List.map_cons]
                rfl
              · rcases hb with h0 | h1
                · rw [h0]
                  push_cast
                  omega
                · push_cast at h1 ⊢
                  omega
    · rw [if_neg hlt]
      exact ⟨0, by simp, Or.inl rfl⟩

/-- The loop started at index `k` issues exactly the indexes `k, k+1, ...`, as
many as there are live rounds, capped by what MaxAttempts leaves above `k`. -/
theorem launchLoop_exact (cfg : Config) (ttl : Int)
    (hm : cfg.MaxAttempts < 9223372036854775808) (obs : List LaunchObs) :
    ∀ k : Nat, launchLoop cfg ttl (k : Int) obs
      = (List.range' k (min (cfg.MaxAttempts.toNat - k) (liveRounds cfg ttl obs))).map
          Int.ofNat := by
  induction obs with
  | nil =>
    intro k
    simp [launchLoop, liveRounds]
  | cons o rest ih =>
    intro k
    unfold launchLoop
    by_cases hlt : (k : Int) < cfg.MaxAttempts
    · rw [if_pos hlt]
      have hk : 1 ≤ cfg.MaxAttempts.toNat - k := by omega
      cases hc : ttlComp o.hops cfg.NumMeasurements ttl with
      | none => simp [liveRounds, hc]
      | some b =>
        cases b with
        | true => simp [liveRounds, hc]
        | false =>
          by_cases he : o.ctxErr = true
          · simp [liveRounds, hc, he]
          · by_cases hd : o.ctxDone = true
            · have hmin : min (cfg.MaxAttempts.toNat - k) 1 = 1 := by omega
              simp only [liveRounds, hc, he, hd, Bool.false_eq_true, if_false, if_true,
                true_and, Bool.not_eq_true, not_false_eq_true, hmin]
              simp [he]
            · have e : wrapInt64 ((k : Int) + 1) = ((k + 1 : Nat) : Int) := by
                rw [wrapInt64_of_range _ (by omega) (by omega)]
                push_cast
                rfl
              have he2 : o.ctxErr = false := by simpa using he
              have hmin : min (cfg.MaxAttempts.toNat - k) (1 + liveRounds cfg ttl rest)
                  = min (cfg.MaxAttempts.toNat - (k + 1)) (liveRounds cfg ttl rest) + 1 := by
                omega
              have hl : liveRounds cfg ttl (o :: rest) = 1 + liveRounds cfg ttl rest := by
                simp [liveRounds, hc, he2, hd]
              rw [hl, hmin, List.range'_succ, List.map_cons, ← ih (k + 1)]
              simp only [he, hd, Bool.false_eq_true, if_false, e]
              rfl
    · rw [if_neg hlt]
      have hk : cfg.MaxAttempts.toNat - k = 0 := by omega
      simp [hk]

/-- When every round finds the slot incomplete and the context alive, and no
wait is ended by `ctx.Done()`, every round is live. -/
theorem liveRounds_all_live (cfg : Config) (ttl : Int) (obs : List LaunchObs)
    (h : ∀ o ∈ obs, ttlComp o.hops cfg.NumMeasurements ttl = some false ∧
      o.ctxErr = false ∧ o.ctxDone = false) :
    liveRounds cfg ttl obs = obs.length := by
  induction obs with
  | nil => rfl
  | cons o rest ih =>
    obtain ⟨h1, h2, h3⟩ := h o (List.mem_cons_self o rest)
    have hr := ih (fun x hx => h x (List.mem_cons_of_mem o hx))
    simp only [liveRounds, h1, h2, h3, hr, List.length_cons]
    simp
    omega

/-- C15: for every TTL, `launchTTL` starts `send` with the attempt indexes 0, 1,
2, ... in increasing order, at most MaxAttempts of them and none when
MaxAttempts <= 0; in a round where the TTL slot already holds NumMeasurements
hops or `ctx.Err()` is non-nil it starts no probe and the loop is over, and
after a probe whose wait is ended by `ctx.Done()` no further probe follows.
The probes are issued indeed: a round with an index below MaxAttempts that
finds the slot incomplete and the context alive starts the probe of that index
and, unless `ctx.Done()` ends the wait, goes on with the next index; the
indexes issued are exactly 0, ..., n-1 with n the smaller of MaxAttempts and
the number of live rounds, so that rounds which are all live issue exactly
0, ..., MaxAttempts-1 when there are that many of them. -/
theorem launchTTL_attempts (cfg : Config) (ttl : Int) (obs : List LaunchObs)
    (hm : cfg.MaxAttempts < 9223372036854775808) :
    (∃ n : Nat, launchTTL cfg ttl obs = (List.range n).map Int.ofNat ∧
      (n : Int) ≤ max 0 cfg.MaxAttempts) ∧
    (cfg.MaxAttempts ≤ 0 → launchTTL cfg ttl obs = []) ∧
    (∀ (i : Int) (o : LaunchObs) (rest : List LaunchObs),
      ttlComp o.hops cfg.NumMeasurements ttl = some true ∨ o.ctxErr = true →
      launchLoop cfg ttl i (o :: rest) = []) ∧
    (∀ (i : Int) (o : LaunchObs) (rest : List LaunchObs), o.ctxDone = true →
      launchLoop cfg ttl i (o :: rest) = [] ∨ launchLoop cfg ttl i (o :: rest) = [i]) ∧
    (∀ (i : Int) (o : LaunchObs) (rest : List LaunchObs), 0 ≤ i → i < cfg.MaxAttempts →
      ttlComp o.hops cfg.NumMeasurements ttl = some false → o.ctxErr = false →
      launchLoop cfg ttl i (o :: rest)
        = i :: (if o.ctxDone then [] else launchLoop cfg ttl (i + 1) rest)) ∧
    launchTTL cfg ttl obs
      = (List.range (min cfg.MaxAttempts.toNat (liveRounds cfg ttl obs))).map Int.ofNat ∧
    ((∀ o ∈ obs, ttlComp o.hops cfg.NumMeasurements ttl = some false ∧
        o.ctxErr = false ∧ o.ctxDone = false) →
      launchTTL cfg ttl obs
        = (List.range (min cfg.MaxAttempts.toNat obs.length)).map Int.ofNat) := by
  obtain ⟨n, hn, hb⟩ := launchLoop_shape cfg ttl hm obs 0
  have hn2 : launchTTL cfg ttl obs = (List.range n).map Int.ofNat := by
    unfold launchTTL
    rw [List.range_eq_range']
    exact hn
  have hex : launchTTL cfg ttl obs
      = (List.range (min cfg.MaxAttempts.toNat (liveRounds cfg ttl obs))).map Int.ofNat := by
    have h := launchLoop_exact cfg ttl hm obs 0
    unfold launchTTL
    rw [List.range_eq_range']
    simpa using h
  refine ⟨⟨n, hn2, ?_⟩, ?_, ?_, ?_, ?_, hex, ?_⟩
  · rcases hb with h0 | h1
    · rw [h0]
      simp
    · push_cast at h1
      omega
  · intro hle
    rw [hn2]
    rcases hb with h0 | h1
    · rw [h0]
      rfl
    · push_cast at h1
      have : n = 0 := by omega
      rw [this]
      rfl
  · intro i o rest h
    unfold launchLoop
    split
    · rcases h with h | h
      · rw [h]
      · cases ttlComp o.hops cfg.NumMeasurements ttl with
        | none => rfl
        | some b => cases b <;> simp [h]
    · rfl
  · intro i o rest hd
    unfold launchLoop
    split
    · cases ttlComp o.hops cfg.NumMeasurements ttl with
      | none => exact Or.inl rfl
      | some b =>
        cases b with
        | true => exact Or.inl rfl
        | false =>
          by_cases he : o.ctxErr = true
          · simp [he]
          · simp [he, hd]
    · exact Or.inl rfl
  · intro i o rest hi0 hi hc he
    have e : wrapInt64 (i + 1) = i + 1 := wrapInt64_of_range _ (by omega) (by omega)
    rw [launchLoop, if_pos hi, hc]
    simp only [he, Bool.false_eq_true, if_false, e]
  · intro hall
    rw [hex, liveRounds_all_live cfg ttl obs hall]

/-- Witness of C15: three rounds at TTL 2 of `sampleConfig`; the first two find
the slot incomplete and issue the probes 0 and 1, the third finds it complete
and issues none. -/
theorem launchTTL_attempts_witness :
    (∃ n : Nat,
      launchTTL sampleConfig 2
          [⟨sampleHops, false, false⟩, ⟨sampleHops, false, false⟩, ⟨hopsAfterTwo, false, false⟩]
        = (List.range n).map Int.ofNat ∧
      (n : Int) ≤ max 0 sampleConfig.MaxAttempts) ∧
    launchTTL sampleConfig 2
        [⟨sampleHops, false, false⟩, ⟨sampleHops, false, false⟩, ⟨hopsAfterTwo, false, false⟩]
      = [0, 1] :=
  ⟨(launchTTL_attempts sampleConfig 2
      [⟨sampleHops, false, false⟩, ⟨sampleHops, false, false⟩, ⟨hopsAfterTwo, false, false⟩]
      (by decide)).1,
    ((launchTTL_attempts sampleConfig 2
      [⟨sampleHops, false, false⟩, ⟨sampleHops, false, false⟩, ⟨hopsAfterTwo, false, false⟩]
      (by decide)).2.2.2.2.2.1).trans (by decide)⟩

/-! ## Windows ICMP ingress mode -/

/-- C16: `resolveICMPMode` returns 1 for the hint 1 without calling
`pcapAvailable`; for every other hint (0, 2 or out of range) it calls it and
returns 2 when pcap is available and 1 when it is not; the result is always 1
or 2, so `ListenICMP` starts exactly one listener, the socket one for 1 and the
pcap one for 2. -/
theorem resolve_icmp_mode (hint : Int) (pcapOK : Bool) :
    (hint = 1 → (resolveICMPMode hint pcapOK).mode = 1 ∧
      (resolveICMPMode hint pcapOK).probed = false) ∧
    (hint ≠ 1 → (resolveICMPMode hint pcapOK).probed = true ∧
      (resolveICMPMode hint pcapOK).mode = if pcapOK then 2 else 1) ∧
    ((resolveICMPMode hint pcapOK).mode = 1 ∨ (resolveICMPMode hint pcapOK).mode = 2) ∧
    ((resolveICMPMode hint pcapOK).mode = 1 →
      ListenICMP hint pcapOK = [ICMPListener.listenICMPSock]) ∧
    ((resolveICMPMode hint pcapOK).mode = 2 →
      ListenICMP hint pcapOK = [ICMPListener.listenICMPPcap]) ∧
    (ListenICMP hint pcapOK).length = 1 := by
  by_cases h1 : hint = 1
  · subst h1
    cases pcapOK <;> decide
  · by_cases h2 : hint = 2
    · subst h2
      cases pcapOK <;> decide
    · have hr : resolveICMPMode hint pcapOK
          = if pcapOK then ⟨2, true, false⟩ else ⟨1, true, false⟩ := by
        cases pcapOK <;> simp [resolveICMPMode, h1, h2]
      have hl : ListenICMP hint pcapOK
          = if pcapOK then [ICMPListener.listenICMPPcap] else [ICMPListener.listenICMPSock] := by
        unfold ListenICMP
        rw [hr]
        cases pcapOK <;> simp
      rw [hr, hl]
      cases pcapOK <;> simp [h1]

/-! ## Command-line values -/

/-- C17: the MaxAttempts that `cmd.Execute` places in the trace `Config` is 255
when the value given for `--max-attempts` is above 255 and the given value
otherwise, so it never exceeds 255. -/
theorem max_attempts_clamp (f : CmdFlags) :
    (f.maxAttempts > 255 → (cmdSettings f).maxAttempts = 255) ∧
    (f.maxAttempts ≤ 255 → (cmdSettings f).maxAttempts = f.maxAttempts) ∧
    (cmdSettings f).maxAttempts ≤ 255 := by
  unfold cmdSettings
  by_cases h : f.maxAttempts > 255
  · simp [h]
  · have h2 : f.maxAttempts ≤ 255 := by omega
    simp [h, h2]

/-- C18, the code at the failing input: with `--tcp --udp --psize 1` the selected
method is TCP and the packet size is changed to 2.  For every other combination
of the two flags the size is max(s, 2) under UDP and s under TCP and ICMP. -/
theorem psize_changed_under_tcp :
    (cmdSettings ⟨true, true, 0, 0, 1⟩).m = Method.TCPTrace ∧
    (cmdSettings ⟨true, true, 0, 0, 1⟩).packetSize = 2 ∧
    (∀ f : CmdFlags, ¬ (f.tcp = true ∧ f.udp = true) →
      ((cmdSettings f).m = Method.UDPTrace → (cmdSettings f).packetSize = max f.packetSize 2) ∧
      ((cmdSettings f).m ≠ Method.UDPTrace → (cmdSettings f).packetSize = f.packetSize)) := by
  refine ⟨by decide, by decide, ?_⟩
  intro f hf
  obtain ⟨tcp, udp, port, ma, ps⟩ := f
  cases tcp <;> cases udp <;> simp [cmdSettings] at hf ⊢
  by_cases h : ps < 2
  · rw [if_pos h]
    omega
  · rw [if_neg h]
    omega

/-- C19, the code at the failing input: with `--tcp --udp` and no `--port` the
selected method is TCP and the destination port is 33494, not 80.  For every
other combination of the two flags a missing port becomes 80 under TCP and 33494
under UDP, and a port that is given is always kept. -/
theorem default_port_under_tcp :
    (cmdSettings ⟨true, true, 0, 0, 52⟩).m = Method.TCPTrace ∧
    (cmdSettings ⟨true, true, 0, 0, 52⟩).port = 33494 ∧
    (∀ f : CmdFlags, ¬ (f.tcp = true ∧ f.udp = true) → f.port = 0 →
      ((cmdSettings f).m = Method.TCPTrace → (cmdSettings f).port = 80) ∧
      ((cmdSettings f).m = Method.UDPTrace → (cmdSettings f).port = 33494)) ∧
    (∀ f : CmdFlags, f.port ≠ 0 → (cmdSettings f).port = f.port) := by
  refine ⟨by decide, by decide, ?_, ?_⟩
  · intro f hf hp
    obtain ⟨tcp, udp, port, ma, ps⟩ := f
    simp only at hp
    subst hp
    cases tcp <;> cases udp <;> simp [cmdSettings] at hf ⊢
  · intro f hp
    simp [cmdSettings, hp]

/-! ## WinDivert assets -/

/-- C20: for a file `dst` that exists and is read without error,
`writeIfChecksumDiff` calls `os.WriteFile` exactly when the SHA-256 of the
existing content differs from the SHA-256 of `data`; when the content equals
`data` it writes nothing, returns nil and leaves the file system as it is; and
a second call after a call that returned nil writes nothing. -/
theorem write_only_if_checksum_differs (sha256 : List Nat → List Nat) (env : FileEnv)
    (fs : FileSystem) (dst : String) (data content : List Nat)
    (hex : fs dst = some content) (ho : env.openErr = none) (hr : env.readErr = none) :
    ((writeIfChecksumDiff sha256 env fs dst data).wrote = true ↔
      sha256 content ≠ sha256 data) ∧
    (content = data →
      (writeIfChecksumDiff sha256 env fs dst data).wrote = false ∧
      (writeIfChecksumDiff sha256 env fs dst data).err = none ∧
      (writeIfChecksumDiff sha256 env fs dst data).fs = fs) ∧
    ((writeIfChecksumDiff sha256 env fs dst data).err = none →
      ∀ env2 : FileEnv, env2.openErr = none → env2.readErr = none →
        (writeIfChecksumDiff sha256 env2
          (writeIfChecksumDiff sha256 env fs dst data).fs dst data).wrote = false) := by
  have h1 : writeIfChecksumDiff sha256 env fs dst data
      = if sha256 content = sha256 data then ⟨fs, false, none⟩
        else osWriteFile env fs dst data := by
    simp only [writeIfChecksumDiff, ho, hex, hr]
  have hsame : ∀ (e2 : FileEnv) (fs2 : FileSystem) (c2 : List Nat), fs2 dst = some c2 →
      sha256 c2 = sha256 data → e2.openErr = none → e2.readErr = none →
      (writeIfChecksumDiff sha256 e2 fs2 dst data).wrote = false := by
    intro e2 fs2 c2 h2 hs ho2 hr2
    simp only [writeIfChecksumDiff, ho2, h2, hr2, hs, if_true]
  refine ⟨?_, ?_, ?_⟩
  · rw [h1]
    by_cases hs : sha256 content = sha256 data
    · simp [hs]
    · rw [if_neg hs]
      have : (osWriteFile env fs dst data).wrote = true := by
        unfold osWriteFile
        split <;> rfl
      simp [this, hs]
  · intro hc
    rw [h1, hc]
    simp
  · intro herr env2 ho2 hr2
    by_cases hs : sha256 content = sha256 data
    · rw [h1, if_pos hs]
      exact hsame env2 fs content hex hs ho2 hr2
    · rw [h1, if_neg hs] at herr ⊢
      cases hw : env.writeErr with
      | some e =>
        simp [osWriteFile, hw] at herr
      | none =>
        have hfs : (osWriteFile env fs dst data).fs dst = some data := by
          simp [osWriteFile, hw]
        exact hsame env2 _ data hfs rfl ho2 hr2

/-- Witness of C20, with the identity in place of the digest: the file holds
1, 2, 3 and the bytes 9, 9 are to be installed. -/
theorem write_only_if_checksum_differs_witness :
    (writeIfChecksumDiff id noFailure sampleFS "WinDivert.dll" [9, 9]).wrote = true ↔
      id [1, 2, 3] ≠ id [9, 9] :=
  (write_only_if_checksum_differs id noFailure sampleFS "WinDivert.dll" [9, 9] [1, 2, 3]
    (by decide) rfl rfl).1

/-! ## Read errors of `writeIfChecksumDiff` -/

/-- C22, as the code has it: whenever opening or reading the existing file
fails, `writeIfChecksumDiff` calls `os.WriteFile` and returns the result of that
write, nil when the write succeeds and the write error otherwise; the error of
the failed open or read is not returned. -/
theorem read_failure_overwrites (sha256 : List Nat → List Nat) (env : FileEnv)
    (fs : FileSystem) (dst : String) (data : List Nat)
    (hfail : env.openErr ≠ none ∨ fs dst = none ∨ env.readErr ≠ none) :
    writeIfChecksumDiff sha256 env fs dst data = osWriteFile env fs dst data ∧
    (writeIfChecksumDiff sha256 env fs dst data).wrote = true ∧
    (writeIfChecksumDiff sha256 env fs dst data).err = env.writeErr := by
  have h1 : writeIfChecksumDiff sha256 env fs dst data = osWriteFile env fs dst data := by
    unfold writeIfChecksumDiff
    cases ho : env.openErr with
    | some e => rfl
    | none =>
      cases hf : fs dst with
      | none => rfl
      | some content =>
        cases hr : env.readErr with
        | some e => rfl
        | none =>
          rcases hfail with h | h | h
          · exact absurd ho h
          · rw [hf] at h
            cases h
          · exact absurd hr h
  refine ⟨h1, ?_, ?_⟩
  · rw [h1]
    unfold osWriteFile
    split <;> rfl
  · rw [h1]
    unfold osWriteFile
    split
    · next e he => rw [he]
    · next he => rw [he]

/-- Witness of C22 (amended): the open of `WinDivert.dll` fails, the bytes are
written and nil is returned. -/
theorem read_failure_overwrites_witness :
    (writeIfChecksumDiff id openFails sampleFS "WinDivert.dll" [9, 9]).err
      = openFails.writeErr :=
  (read_failure_overwrites id openFails sampleFS "WinDivert.dll" [9, 9]
    (Or.inl (by decide))).2.2

/-- C22 fails as stated: `os.Open` fails with an error, the write succeeds, and
`writeIfChecksumDiff` returns nil, not the error of the open; the file then
holds the new bytes. -/
theorem open_error_not_returned :
    openFails.openErr = some (.other "open: permission denied") ∧
    (writeIfChecksumDiff id openFails sampleFS "WinDivert.dll" [9, 9]).err = none ∧
    (writeIfChecksumDiff id openFails sampleFS "WinDivert.dll" [9, 9]).wrote = true ∧
    (writeIfChecksumDiff id openFails sampleFS "WinDivert.dll" [9, 9]).fs "WinDivert.dll"
      = some [9, 9] := by
  decide

/-! ## The completion check -/

/-- C24, the code at the failing input: `ttlComp(0)`, the first check of a run
started with `--first 0`, indexes `Hops[-1]` and panics, in `PrintFunc` and in
`launchTTL` alike; so does every ttl <= 0 above the smallest Go int, for every
result.  For 1 <= ttl the check returns, true exactly when ttl <= len(Hops)
and the slot `Hops[ttl-1]` holds at least NumMeasurements hops. -/
theorem ttlComp_panics_below_one :
    ttlComp sampleHops configFirstZero.NumMeasurements configFirstZero.BeginHop = none ∧
    (printFuncRound configFirstZero false true sampleHops (-1)
      (printFuncInit configFirstZero)).outcome = PrintOutcome.panicked ∧
    (∀ (hops : List (List Hop)) (n ttl : Int), ttl ≤ 0 → -9223372036854775808 < ttl →
      ttlComp hops n ttl = none) ∧
    (∀ (hops : List (List Hop)) (n ttl : Int), 1 ≤ ttl → ttl < 9223372036854775808 →
      ttlComp hops n ttl
        = some (decide (ttl ≤ hops.length ∧ (hops.getD (ttl - 1).toNat []).length ≥ n))) := by
  refine ⟨by decide, by decide, ?_, ?_⟩
  · intro hops n ttl h0 h1
    have e : wrapInt64 (ttl - 1) = ttl - 1 := wrapInt64_of_range _ (by omega) (by omega)
    unfold ttlComp
    simp only [e]
    have hlt : ttl - 1 < (hops.length : Int) := by omega
    have hneg : ttl - 1 < 0 := by omega
    simp [hlt, hneg]
  · intro hops n ttl h0 h1
    have e : wrapInt64 (ttl - 1) = ttl - 1 := wrapInt64_of_range _ (by omega) (by omega)
    unfold ttlComp
    simp only [e]
    by_cases hlt : ttl - 1 < (hops.length : Int)
    · have hneg : ¬ ttl - 1 < 0 := by omega
      have hle : ttl ≤ (hops.length : Int) := by omega
      simp [hlt, hneg, hle]
    · have hle : ¬ ttl ≤ (hops.length : Int) := by omega
      simp [hlt, hle]

/-! ## The target given on the command line -/

theorem strSplit_ne_nil (c : Char) (s : List Char) : strSplit c s ≠ [] := by
  cases s with
  | nil => simp [strSplit]
  | cons x xs =>
    unfold strSplit
    split
    · simp
    · split <;> simp

theorem strSplit_length (c : Char) (s : List Char) :
    (strSplit c s).length = s.count c + 1 := by
  induction s with
  | nil => simp [strSplit]
  | cons x xs ih =>
    unfold strSplit
    by_cases h : x = c
    · simp [h, ih]
    · have hc : ¬ (x == c) = true := by simpa using h
      rw [if_neg h]
      cases hs : strSplit c xs with
      | nil => exact absurd hs (strSplit_ne_nil c xs)
      | cons p ps =>
        rw [hs] at ih
        simp only [List.length_cons] at ih ⊢
        rw [List.count_cons, if_neg hc]
        omega

theorem strSplit_head (c : Char) (s : List Char) :
    (strSplit c s).get? 0 = some (s.takeWhile (fun x => decide (x ≠ c))) := by
  induction s with
  | nil => simp [strSplit]
  | cons x xs ih =>
    unfold strSplit
    by_cases h : x = c
    · simp [h]
    · rw [if_neg h]
      cases hs : strSplit c xs with
      | nil => exact absurd hs (strSplit_ne_nil c xs)
      | cons p ps =>
        rw [hs] at ih
        simp at ih
        simp [h, ih]

theorem strSplit_second_none (c : Char) (s : List Char) :
    (strSplit c s).get? 1 = none ↔ c ∉ s := by
  rw [List.get?_eq_none, strSplit_length, ← List.count_eq_zero]
  omega

theorem stripBrackets_panics_iff (d : List Char) :
    stripBrackets d = .panicked ↔
      (d.contains ']' = true ∧ '[' ∉ d.takeWhile (fun x => decide (x ≠ ']'))) := by
  unfold stripBrackets
  by_cases hb : d.contains ']' = true
  · rw [if_pos hb, strSplit_head]
    simp only [hb, true_and]
    cases hs : (strSplit '[' (d.takeWhile (fun x => decide (x ≠ ']')))).get? 1 with
    | none =>
      simp only [true_iff]
      exact (strSplit_second_none _ _).mp hs
    | some inner =>
      constructor
      · intro h
        cases h
      · intro hn
        rw [(strSplit_second_none _ _).mpr hn] at hs
        cases hs
  · rw [if_neg hb]
    simp only [hb, false_and, iff_false]
    split
    · split
      · rw [strSplit_head]
        simp
      · simp
    · simp

/-- C25, the code at the failing input: for the target `a]`, and for
`http://a]/x`, the part before `]` holds no `[`, so `strings.Split(..., "[")`
has one element and the index `[1]` panics.  In general the bracket step
panics exactly when the string contains `]` and no `[` before the first `]`, and
the domain processing panics nowhere else. -/
theorem target_bracket_panics :
    processDomain "a]".toList = .panicked ∧
    processDomain "http://a]/x".toList = .panicked ∧
    processDomain "[2001:db8::1]:443".toList = .host "2001:db8::1".toList ∧
    (∀ d : List Char, stripBrackets d = .panicked ↔
      (d.contains ']' = true ∧ '[' ∉ d.takeWhile (fun x => decide (x ≠ ']')))) ∧
    (∀ d : List Char, processDomain d = .panicked →
      ∃ d2 : List Char, stripBrackets d2 = .panicked) := by
  refine ⟨by decide, by decide, by decide, stripBrackets_panics_iff, ?_⟩
  intro d
  unfold processDomain
  split
  · intro h
    cases h
  · split
    · simp only
      by_cases hlen : (strSplit '/' ('n' :: d)).length < 3
      · rw [if_pos hlen]
        intro h
        cases h
      · rw [if_neg hlen]
        cases hp : (strSplit '/' ('n' :: d)).get? 2 with
        | none =>
          rw [List.get?_eq_none] at hp
          omega
        | some d2 =>
          intro h
          exact ⟨d2, h⟩
    · intro h
      exact ⟨d, h⟩

/-! ## The listen address of the web console -/

theorem httpURL_ne_nil (h p : List Char) : httpURL h p ≠ [] := by
  have e : "http://".toList = 'h' :: "ttp://".toList := by decide
  unfold httpURL
  rw [e]
  simp

theorem firstLocalIPv4_ne_nil (l : List InterfaceAddr) (g : List Char)
    (h : firstLocalIPv4 l = some g) : g ≠ [] := by
  induction l with
  | nil => simp [firstLocalIPv4] at h
  | cons a rest ih =>
    unfold firstLocalIPv4 at h
    split at h
    · split at h
      · simp only [Option.some.injEq] at h
        rw [← h]
        simp [ip4String]
      · exact ih h
    · exact ih h

theorem guessLocalIPv4_ne_nil (addrs : Option (List InterfaceAddr)) :
    guessLocalIPv4 addrs ≠ [] := by
  cases addrs with
  | none =>
    show "127.0.0.1".toList ≠ []
    decide
  | some l =>
    simp only [guessLocalIPv4]
    split
    · next g hf => exact firstLocalIPv4_ne_nil l g hf
    · decide

theorem buildListenInfo_split (splitHostPort : List Char → Option (List Char × List Char))
    (addrs : Option (List InterfaceAddr)) (addr host port : List Char)
    (hs : splitHostPort (if addr = [] then ":1080".toList else addr) = some (host, port)) :
    (buildListenInfo splitHostPort addrs addr).Binding
      = "http://".toList ++
          (if host = [] then "0.0.0.0".toList
            else if host.contains ':' && !(['['].isPrefixOf host) then '[' :: host ++ [']']
            else host) ++
          ':' :: (if port = [] then "1080".toList else port) ∧
    ((buildListenInfo splitHostPort addrs addr).Access ≠ [] ↔
      host = [] ∨ host = "0.0.0.0".toList ∨ host = "::".toList) := by
  have hg := guessLocalIPv4_ne_nil addrs
  unfold buildListenInfo
  simp only [hs]
  by_cases hh : host = []
  · subst hh
    have e0 : ("0.0.0.0".toList.contains ':' && !(['['].isPrefixOf "0.0.0.0".toList)) = false := by
      decide
    simp only [if_true, e0, Bool.false_eq_true, if_false, true_or, hg, ne_eq, not_false_eq_true]
    exact ⟨rfl, by simp [httpURL_ne_nil]⟩
  · simp only [hh, if_false, false_or, hg, ne_eq, not_false_eq_true, if_true]
    by_cases hc : host = "0.0.0.0".toList ∨ host = "::".toList
    · rw [if_pos hc]
      exact ⟨rfl, fun _ => hc, fun _ => httpURL_ne_nil _ _⟩
    · rw [if_neg hc]
      exact ⟨rfl, fun h => absurd rfl h, fun h => absurd h hc⟩

/-- C26: `buildListenInfo("")` has Binding `http://0.0.0.0:1080`; for every
address that splits into (host, port), Binding is `http://` H `:` P with H =
`0.0.0.0` for an empty host, `[host]` for a host that contains `:` and does not
start with `[`, and the host otherwise, and P = `1080` for an empty port and the
port otherwise; Access is non-empty exactly when the host is empty, `0.0.0.0` or
`::`; and a non-empty address that does not split and does not start with `:`
gives Binding = addr with Access empty. -/
theorem listen_info_rendering (splitHostPort : List Char → Option (List Char × List Char))
    (addrs : Option (List InterfaceAddr)) :
    (splitHostPort ":1080".toList = some ([], "1080".toList) →
      (buildListenInfo splitHostPort addrs []).Binding = "http://0.0.0.0:1080".toList) ∧
    (∀ addr host port : List Char, addr ≠ [] → splitHostPort addr = some (host, port) →
      (buildListenInfo splitHostPort addrs addr).Binding
        = "http://".toList ++
            (if host = [] then "0.0.0.0".toList
              else if host.contains ':' && !(['['].isPrefixOf host) then '[' :: host ++ [']']
              else host) ++
            ':' :: (if port = [] then "1080".toList else port) ∧
      ((buildListenInfo splitHostPort addrs addr).Access ≠ [] ↔
        host = [] ∨ host = "0.0.0.0".toList ∨ host = "::".toList)) ∧
    (∀ addr : List Char, addr ≠ [] → splitHostPort addr = none →
      [':'].isPrefixOf addr = false →
      buildListenInfo splitHostPort addrs addr = ⟨addr, []⟩) := by
  refine ⟨?_, ?_, ?_⟩
  · intro hs
    have h := (buildListenInfo_split splitHostPort addrs [] [] "1080".toList
      (by simpa using hs)).1
    rw [h]
    decide
  · intro addr host port hne hs
    exact buildListenInfo_split splitHostPort addrs addr host port (by simpa [hne] using hs)
  · intro addr hne hs hp
    unfold buildListenInfo
    simp only [hne, if_false, hs, hp, Bool.false_eq_true]

/-- Witness of C26: with `net.SplitHostPort` answering ("", "1080") for `:1080`,
the empty address renders as `http://0.0.0.0:1080`. -/
theorem listen_info_rendering_witness :
    (buildListenInfo (fun _ => some ([], "1080".toList)) none []).Binding
      = "http://0.0.0.0:1080".toList :=
  (listen_info_rendering (fun _ => some ([], "1080".toList)) none).1 rfl

/-! ## Argument validation of the macOS `ListenPacket` -/

theorem afProto_ip4 (network : List Char)
    (h : network = "ip4:icmp".toList ∨ network = "ip4:1".toList) :
    afProtoFromNetwork network = some (AF_INET, IPPROTO_ICMP) := by
  rcases h with rfl | rfl <;> decide

theorem afProto_ip6 (network : List Char)
    (h : network = "ip6:ipv6-icmp".toList ∨ network = "ip6:58".toList) :
    afProtoFromNetwork network = some (AF_INET6, IPPROTO_ICMPV6) := by
  rcases h with rfl | rfl <;> decide

theorem afProto_known (network : List Char)
    (h : network = "ip4:icmp".toList ∨ network = "ip4:1".toList ∨
      network = "ip6:ipv6-icmp".toList ∨ network = "ip6:58".toList) :
    ∃ af proto, afProtoFromNetwork network = some (af, proto) := by
  rcases h with h | h | h | h
  · exact ⟨_, _, afProto_ip4 network (Or.inl h)⟩
  · exact ⟨_, _, afProto_ip4 network (Or.inr h)⟩
  · exact ⟨_, _, afProto_ip6 network (Or.inl h)⟩
  · exact ⟨_, _, afProto_ip6 network (Or.inr h)⟩

/-- C21: the macOS `ListenPacket` rejects bad arguments before any system call.
It returns errUnknownNetwork when the network is none of `ip4:icmp`, `ip4:1`,
`ip6:ipv6-icmp`, `ip6:58`; otherwise, for a non-empty address, errUnknownIface
when the trimmed, zone-stripped address does not parse as an IP, and
errIPFamilyMismatch when the network is IPv4 and `To4` of the address is nil, or
the network is IPv6 and `To4` is not nil (an IPv4 or IPv4-mapped address).  With
an empty address none of these checks runs and the only system calls are the
creation of the socket and its hand-over: no interface or source binding. -/
theorem listen_packet_validation (env : DarwinEnv) (network address : List Char) :
    (network ≠ "ip4:icmp".toList → network ≠ "ip4:1".toList →
      network ≠ "ip6:ipv6-icmp".toList → network ≠ "ip6:58".toList →
      ListenPacket env network address = ⟨[], some .errUnknownNetwork⟩) ∧
    (network = "ip4:icmp".toList ∨ network = "ip4:1".toList ∨
        network = "ip6:ipv6-icmp".toList ∨ network = "ip6:58".toList →
      address ≠ [] → parseIPStripZone env.parseIP address = none →
      ListenPacket env network address = ⟨[], some .errUnknownIface⟩) ∧
    (∀ ip : IP, network = "ip4:icmp".toList ∨ network = "ip4:1".toList →
      address ≠ [] → parseIPStripZone env.parseIP address = some ip → ip.To4 = none →
      ListenPacket env network address = ⟨[], some .errIPFamilyMismatch⟩) ∧
    (∀ ip : IP, network = "ip6:ipv6-icmp".toList ∨ network = "ip6:58".toList →
      address ≠ [] → parseIPStripZone env.parseIP address = some ip → ip.To4 ≠ none →
      ListenPacket env network address = ⟨[], some .errIPFamilyMismatch⟩) ∧
    (network = "ip4:icmp".toList ∨ network = "ip4:1".toList ∨
        network = "ip6:ipv6-icmp".toList ∨ network = "ip6:58".toList →
      address = [] →
      (ListenPacket env network address).err ≠ some .errUnknownNetwork ∧
      (ListenPacket env network address).err ≠ some .errUnknownIface ∧
      (ListenPacket env network address).err ≠ some .errIPFamilyMismatch ∧
      ∀ c ∈ (ListenPacket env network address).calls,
        (∃ af proto, c = DarwinCall.socket af proto) ∨ c = DarwinCall.closeOnExec ∨
          c = DarwinCall.filePacketConn ∨ c = DarwinCall.close) ∧
    parseIPStripZone env.parseIP address
      = env.parseIP (if (trimSpace address).contains '%'
          then (trimSpace address).takeWhile (fun c => decide (c ≠ '%'))
          else trimSpace address) := by
  refine ⟨?_, ?_, ?_, ?_, ?_, rfl⟩
  · intro h1 h2 h3 h4
    have hn : afProtoFromNetwork network = none := by
      unfold afProtoFromNetwork
      rw [if_neg (fun h => h.elim h1 h2), if_neg (fun h => h.elim h3 h4)]
    simp [ListenPacket, hn]
  · intro hnet hne hp
    obtain ⟨af, proto, haf⟩ := afProto_known network hnet
    simp [ListenPacket, haf, hne, hp]
  · intro ip hnet hne hp h4
    simp [ListenPacket, afProto_ip4 network hnet, hne, hp, h4]
  · intro ip hnet hne hp h4
    have hd : ¬ AF_INET6 = AF_INET := by decide
    simp [ListenPacket, afProto_ip6 network hnet, hne, hp, h4, hd]
  · intro hnet he
    obtain ⟨af, proto, haf⟩ := afProto_known network hnet
    have hrun : ListenPacket env network address = listenSocket env af proto [] none (-1) := by
      simp [ListenPacket, haf, he]
    rw [hrun]
    unfold listenSocket
    by_cases hs : env.socketErr = true
    · simp [hs]
    · by_cases hf : env.filePacketConnErr = true
      · simp [hs, hf]
      · simp [hs, hf]

/-- Witness of C21: `10.0.0.300` is no IP, so the call for `ip4:icmp` ends with
errUnknownIface and without a system call. -/
theorem listen_packet_validation_witness :
    ListenPacket noParseEnv "ip4:icmp".toList "10.0.0.300".toList
      = ⟨[], some .errUnknownIface⟩ :=
  (listen_packet_validation noParseEnv "ip4:icmp".toList "10.0.0.300".toList).2.1
    (Or.inl rfl) (by decide) rfl

/-! ## The DN42 pointer lookup -/

theorem row_of_four (row : List (List Char)) (h : 4 ≤ row.length) :
    ∃ a b c d rest, row = a :: b :: c :: d :: rest := by
  match row, h with
  | a :: b :: c :: d :: rest, _ => exact ⟨a, b, c, d, rest, rfl⟩

theorem cityLoop_find (regexMatch : List Char → List Char → Option Bool)
    (toLower : List Char → List Char) (ptr : List Char) (rows : List (List (List Char)))
    (hrows : ∀ row ∈ rows, 4 ≤ row.length) :
    cityLoop regexMatch toLower (toLower ptr) rows
      = match rows.find? (cityMatches regexMatch toLower ptr) with
        | some row => .returned ⟨[], row.getD 1 [], row.getD 2 [], row.getD 3 []⟩
        | none => .done := by
  induction rows with
  | nil => rfl
  | cons row rest ih =>
    obtain ⟨a, b, c, d, tl, rfl⟩ := row_of_four row (hrows row (List.mem_cons_self _ _))
    have ih2 := ih (fun r hr => hrows r (List.mem_cons_of_mem _ hr))
    by_cases hd : d = []
    · simp [cityLoop, cityMatches, List.find?_cons, hd, ih2]
    · by_cases hm : matchesPattern regexMatch
          (toLower (d.filter (fun c => !decide (c = ' ')))) (toLower ptr) = true
      · simp [cityLoop, cityMatches, List.find?_cons, hd, hm]
      · simp [cityLoop, cityMatches, List.find?_cons, hd, hm, ih2]

theorem iataLoop_find (regexMatch : List Char → List Char → Option Bool)
    (toLower : List Char → List Char) (ptr : List Char) (rows : List (List (List Char)))
    (hrows : ∀ row ∈ rows, 4 ≤ row.length) :
    iataLoop regexMatch toLower (toLower ptr) rows
      = match rows.find? (iataMatches regexMatch toLower ptr) with
        | some row =>
          .returned ⟨toLower (row.getD 0 []), row.getD 1 [], row.getD 2 [], row.getD 3 []⟩
        | none => .done := by
  induction rows with
  | nil => rfl
  | cons row rest ih =>
    obtain ⟨a, b, c, d, tl, rfl⟩ := row_of_four row (hrows row (List.mem_cons_self _ _))
    have ih2 := ih (fun r hr => hrows r (List.mem_cons_of_mem _ hr))
    by_cases ha : a = []
    · simp [iataLoop, iataMatches, List.find?_cons, ha, ih2]
    · by_cases hm : matchesPattern regexMatch (toLower a) (toLower ptr) = true
      · simp [iataLoop, iataMatches, List.find?_cons, ha, hm]
      · simp [iataLoop, iataMatches, List.find?_cons, ha, hm, ih2]

/-- C23: on a table whose rows have at least 4 columns, `FindPtrRecord` returns
the first row (in table order) whose non-empty city matches, with LtdCode,
Region and City of that row and an empty IATACode, whatever the IATA codes of
earlier rows; when no city matches, the first row whose non-empty lower-cased
IATA code matches, with IATACode set to the lower-cased code; and when neither
matches, the empty row with the error "ptr not found". -/
theorem find_ptr_record_order (regexMatch : List Char → List Char → Option Bool)
    (toLower : List Char → List Char) (rows : List (List (List Char))) (ptr : List Char)
    (hrows : ∀ row ∈ rows, 4 ≤ row.length) :
    FindPtrRecord regexMatch toLower rows ptr = FindPtrRecordSpec regexMatch toLower rows ptr ∧
    (∀ row, rows.find? (cityMatches regexMatch toLower ptr) = some row →
      FindPtrRecord regexMatch toLower rows ptr
        = .found ⟨[], row.getD 1 [], row.getD 2 [], row.getD 3 []⟩) ∧
    (∀ row, rows.find? (cityMatches regexMatch toLower ptr) = none →
      rows.find? (iataMatches regexMatch toLower ptr) = some row →
      FindPtrRecord regexMatch toLower rows ptr
        = .found ⟨toLower (row.getD 0 []), row.getD 1 [], row.getD 2 [], row.getD 3 []⟩) ∧
    (rows.find? (cityMatches regexMatch toLower ptr) = none →
      rows.find? (iataMatches regexMatch toLower ptr) = none →
      FindPtrRecord regexMatch toLower rows ptr = .notFound) := by
  have hc := cityLoop_find regexMatch toLower ptr rows hrows
  have hi := iataLoop_find regexMatch toLower ptr rows hrows
  have heq : FindPtrRecord regexMatch toLower rows ptr
      = FindPtrRecordSpec regexMatch toLower rows ptr := by
    unfold FindPtrRecord FindPtrRecordSpec
    simp only [hc, hi]
    cases rows.find? (cityMatches regexMatch toLower ptr) with
    | some row => rfl
    | none =>
      cases rows.find? (iataMatches regexMatch toLower ptr) with
      | some row => rfl
      | none => rfl
  refine ⟨heq, ?_, ?_, ?_⟩
  · intro row h
    rw [heq]
    simp [FindPtrRecordSpec, h]
  · intro row h1 h2
    rw [heq]
    simp [FindPtrRecordSpec, h1, h2]
  · intro h1 h2
    rw [heq]
    simp [FindPtrRecordSpec, h1, h2]

/-- Witness of C23: in the sample table the city of the second row matches
`core1.frankfurt.example`. -/
theorem find_ptr_record_order_witness :
    FindPtrRecord frankfurtOnly asciiLower sampleTable "core1.frankfurt.example".toList
      = .found ⟨[], "ltd2".toList, "de".toList, "Frankfurt".toList⟩ :=
  (find_ptr_record_order frankfurtOnly asciiLower sampleTable
    "core1.frankfurt.example".toList (by decide)).2.1
    ["fra".toList, "ltd2".toList, "de".toList, "Frankfurt".toList] (by decide)

/-! ## The result built from Globalping hops -/

theorem foldl_max_timings (l : List MTRHop) :
    ∀ m0 : Nat,
      m0 ≤ l.foldl (fun m h => max m h.Timings.length) m0 ∧
      (∀ h ∈ l, h.Timings.length ≤ l.foldl (fun m h => max m h.Timings.length) m0) ∧
      (l.foldl (fun m h => max m h.Timings.length) m0 = m0 ∨
        ∃ h ∈ l, h.Timings.length = l.foldl (fun m h => max m h.Timings.length) m0) := by
  induction l with
  | nil =>
    intro m0
    exact ⟨le_refl _, fun h hh => (by cases hh), Or.inl rfl⟩
  | cons a rest ih =>
    intro m0
    obtain ⟨h1, h2, h3⟩ := ih (max m0 a.Timings.length)
    simp only [List.foldl_cons]
    refine ⟨by omega, ?_, ?_⟩
    · intro h hh
      rcases List.mem_cons.mp hh with e | e
      · rw [e]
        omega
      · exact h2 h e
    · rcases h3 with e | ⟨h, hh, e⟩
      · by_cases hm : a.Timings.length ≤ m0
        · left
          rw [e]
          omega
        · right
          refine ⟨a, List.mem_cons_self _ _, ?_⟩
          rw [e]
          omega
      · exact Or.inr ⟨h, List.mem_cons_of_mem _ hh, e⟩

theorem appendSlots_eq (parseIP : List Char → Option IP) (duration : MTRTiming → Int)
    (M : Nat) (l : List MTRHop) :
    ∀ (i : Nat) (acc : List (List Hop)),
      appendSlots parseIP duration M i l acc
        = acc ++ (l.enumFrom i).map (fun p => slotOf parseIP duration M p.1 p.2) := by
  induction l with
  | nil =>
    intro i acc
    simp [appendSlots]
  | cons h rest ih =>
    intro i acc
    simp [appendSlots, ih]

theorem slotOf_get (parseIP : List Char → Option IP) (duration : MTRTiming → Int)
    (M i j : Nat) (g : MTRHop) (hj : j < M) :
    ∃ hop : Hop, (slotOf parseIP duration M i g)[j]? = some hop ∧
      hop.TTL = (i : Int) + 1 ∧ (hop.Success = true ↔ j < g.Timings.length) := by
  refine ⟨mapGlobalpingHop parseIP duration ((i : Int) + 1) g
    (if j < g.Timings.length then g.Timings[j]? else none), ?_, ?_, ?_⟩
  · unfold slotOf
    rw [List.getElem?_map, List.getElem?_range hj]
    rfl
  · unfold mapGlobalpingHop
    split <;> split <;> rfl
  · by_cases hlt : j < g.Timings.length
    · have hs : g.Timings[j]? = some (g.Timings[j]) := List.getElem?_eq_getElem hlt
      simp only [hlt, if_true, hs, iff_true]
      unfold mapGlobalpingHop
      rfl
    · simp only [hlt, if_false, iff_false]
      unfold mapGlobalpingHop
      split <;> simp

/-- C27: the result built by `GlobalpingTraceroute` has one TTL slot per decoded
MTR hop, in the same order; every slot holds exactly M hops, with M the largest
number of timings of any MTR hop and at least 1; in slot i (from 0) every hop
has TTL = i + 1, and hop j has Success = true exactly when j is below the number
of timings of MTR hop i. -/
theorem globalping_result_rectangular (parseIP : List Char → Option IP)
    (duration : MTRTiming → Int) (gpHops : List MTRHop) :
    (globalpingHops parseIP duration gpHops).length = gpHops.length ∧
    1 ≤ maxTimingsOf gpHops ∧
    (∀ h ∈ gpHops, h.Timings.length ≤ maxTimingsOf gpHops) ∧
    (maxTimingsOf gpHops = 1 ∨ ∃ h ∈ gpHops, h.Timings.length = maxTimingsOf gpHops) ∧
    (∀ (i : Nat) (g : MTRHop), gpHops[i]? = some g →
      ∃ slot : List Hop,
        (globalpingHops parseIP duration gpHops)[i]? = some slot ∧
        slot = slotOf parseIP duration (maxTimingsOf gpHops) i g ∧
        slot.length = maxTimingsOf gpHops ∧
        ∀ j : Nat, j < maxTimingsOf gpHops →
          ∃ hop : Hop, slot[j]? = some hop ∧ hop.TTL = (i : Int) + 1 ∧
            (hop.Success = true ↔ j < g.Timings.length)) := by
  obtain ⟨m1, m2, m3⟩ := foldl_max_timings gpHops 1
  have heq : globalpingHops parseIP duration gpHops
      = (gpHops.enumFrom 0).map
          (fun p => slotOf parseIP duration (maxTimingsOf gpHops) p.1 p.2) := by
    unfold globalpingHops
    rw [appendSlots_eq]
    rfl
  refine ⟨?_, m1, m2, m3, ?_⟩
  · rw [heq]
    simp
  · intro i g hg
    refine ⟨slotOf parseIP duration (maxTimingsOf gpHops) i g, ?_, rfl, ?_, ?_⟩
    · rw [heq, List.getElem?_map, List.getElem?_enumFrom, hg]
      simp
    · simp [slotOf]
    · intro j hj
      exact slotOf_get parseIP duration (maxTimingsOf gpHops) i j g hj

/-- Witness of C27: three MTR hops with 2, 0 and 3 timings give three slots, and
the slot of the second one holds three hops. -/
theorem globalping_result_rectangular_witness :
    (globalpingHops (fun _ => none) (fun t => t.RTT) sampleMTR).length = sampleMTR.length ∧
    ∃ slot : List Hop,
      (globalpingHops (fun _ => none) (fun t => t.RTT) sampleMTR)[1]? = some slot ∧
      slot.length = maxTimingsOf sampleMTR :=
  have h := globalping_result_rectangular (fun _ => none) (fun t => t.RTT) sampleMTR
  ⟨h.1, (h.2.2.2.2 1 ⟨[], [], []⟩ rfl).elim
    (fun slot hs => ⟨slot, hs.1, hs.2.2.1⟩)⟩

end NTrace
